import Mathlib

/-!
Verification of the clayemails bulk-enrichment pipeline
(`comprehensive_pipeline.py`, `enrich_linkedin_profiles_async.py`).

Shallow embedding: the pure and stateful fragments of the Python source are
translated into executable Lean definitions.  HTTP traffic is modelled by
oracle functions (one response per request index); wall-clock time in the
poll loop is modelled by the iteration count (each iteration advances by
`POLL_INTERVAL` seconds, the sleep at the end of the loop body).
-/

namespace ClayEmails

/-! ## Constants (module-level constants of both Python files) -/

def MAX_URLS_PER_BATCH : Nat := 500

def POLL_INTERVAL : Nat := 5

def MAX_POLL_TIME : Nat := 3600

/-! ## Batch splitting

`enrich_with_clado` / `enrich_csv_file_async` iterate
`for batch_start in range(0, len(valid_urls), MAX_URLS_PER_BATCH)` and slice
`valid_urls[batch_start:batch_end]`.  `chunkBatches` is that loop: the k-th
batch is the slice starting at `k * MAX_URLS_PER_BATCH`, and the number of
batches is `ceil(len / MAX_URLS_PER_BATCH)` (the count of starts below
`len`), exactly as in `total_batches = (len + MAX - 1) // MAX` of the async
file. -/

def chunkBatches (l : List α) : List (List α) :=
  (List.range ((l.length + MAX_URLS_PER_BATCH - 1) / MAX_URLS_PER_BATCH)).map
    (fun k => (l.drop (k * MAX_URLS_PER_BATCH)).take MAX_URLS_PER_BATCH)

theorem chunkBatches_nil : chunkBatches ([] : List α) = [] := by
  simp [chunkBatches, MAX_URLS_PER_BATCH]

/-- Arithmetic of the batch count: a nonempty list contributes one batch
plus the batches of its remainder. -/
theorem batchCount_peel (L : Nat) (h : 1 ≤ L) :
    (L + MAX_URLS_PER_BATCH - 1) / MAX_URLS_PER_BATCH =
      ((L - MAX_URLS_PER_BATCH) + MAX_URLS_PER_BATCH - 1) / MAX_URLS_PER_BATCH
        + 1 := by
  show (L + 500 - 1) / 500 = (L - 500 + 500 - 1) / 500 + 1
  rcases le_or_lt L 500 with hle | hlt
  · have h1 : L + 500 - 1 = (L - 1) + 500 := by omega
    have h2 : L - 500 + 500 - 1 = 499 := by omega
    rw [h1, h2, Nat.add_div_right _ (by norm_num)]
    rw [Nat.div_eq_of_lt (by omega : L - 1 < 500),
      Nat.div_eq_of_lt (by norm_num : (499 : Nat) < 500)]
  · have h1 : L + 500 - 1 = (L - 501 + 500) + 500 := by omega
    have h2 : L - 500 + 500 - 1 = (L - 501) + 500 := by omega
    rw [h1, h2, Nat.add_div_right _ (by norm_num),
      Nat.add_div_right _ (by norm_num)]

/-- Peeling one batch: on a nonempty list the batch loop produces the first
`MAX_URLS_PER_BATCH` elements and then chunks the remainder. -/
theorem chunkBatches_cons (l : List α) (h : l ≠ []) :
    chunkBatches l = l.take MAX_URLS_PER_BATCH ::
      chunkBatches (l.drop MAX_URLS_PER_BATCH) := by
  have hlen : 1 ≤ l.length := List.length_pos.mpr h
  simp only [chunkBatches, List.length_drop]
  rw [batchCount_peel l.length hlen, List.range_succ_eq_map]
  simp only [List.map_cons, Nat.zero_mul, List.drop_zero, List.map_map]
  refine congrArg₂ List.cons rfl ?_
  refine List.map_congr_left ?_
  intro k _
  simp only [Function.comp_apply, List.drop_drop]
  have harith : MAX_URLS_PER_BATCH + k * MAX_URLS_PER_BATCH =
      Nat.succ k * MAX_URLS_PER_BATCH := by
    rw [Nat.succ_mul, Nat.add_comm]
  rw [harith]

/-- Induction principle matching the batch loop: prove a property of
`chunkBatches` by handling the empty list and the peel step. -/
theorem chunkBatches_induction {motive : List α → Prop}
    (hnil : motive [])
    (hcons : ∀ l : List α, l ≠ [] → motive (l.drop MAX_URLS_PER_BATCH) → motive l)
    (l : List α) : motive l := by
  generalize hn : l.length = n
  induction n using Nat.strong_induction_on generalizing l with
  | _ n ih =>
    cases l with
    | nil => exact hnil
    | cons a as =>
      refine hcons (a :: as) (by simp) ?_
      refine ih ((a :: as).drop MAX_URLS_PER_BATCH).length ?_ _ rfl
      rw [← hn]
      simp only [List.length_drop, List.length_cons, MAX_URLS_PER_BATCH]
      omega

theorem chunkBatches_flatten (l : List α) : (chunkBatches l).flatten = l := by
  induction l using chunkBatches_induction with
  | hnil => rw [chunkBatches_nil]; rfl
  | hcons l h ih =>
    rw [chunkBatches_cons l h]
    simp only [List.flatten_cons, ih, List.take_append_drop]

theorem chunkBatches_length_le (l : List α) :
    ∀ b ∈ chunkBatches l, b.length ≤ MAX_URLS_PER_BATCH := by
  induction l using chunkBatches_induction with
  | hnil => intro b hb; rw [chunkBatches_nil] at hb; simp at hb
  | hcons l h ih =>
    intro b hb
    rw [chunkBatches_cons l h] at hb
    rcases List.mem_cons.mp hb with hb | hb
    · subst hb
      rw [List.length_take]
      exact Nat.min_le_left _ _
    · exact ih b hb

theorem chunkBatches_nonfinal_full (l : List α) :
    ∀ i, i + 1 < (chunkBatches l).length →
      ((chunkBatches l).getD i []).length = MAX_URLS_PER_BATCH := by
  induction l using chunkBatches_induction with
  | hnil => intro i hi; rw [chunkBatches_nil] at hi; simp at hi
  | hcons l h ih =>
    intro i hi
    rw [chunkBatches_cons l h] at hi ⊢
    cases i with
    | zero =>
      simp only [List.getD_cons_zero]
      simp only [List.length_cons] at hi
      have hne : chunkBatches (l.drop MAX_URLS_PER_BATCH) ≠ [] := by
        intro hemp
        rw [hemp] at hi
        simp at hi
      have hdrop : l.drop MAX_URLS_PER_BATCH ≠ [] := by
        intro hemp
        rw [hemp, chunkBatches_nil] at hne
        exact hne rfl
      have hlt : MAX_URLS_PER_BATCH < l.length := by
        by_contra hle
        push_neg at hle
        exact hdrop (List.drop_eq_nil_of_le hle)
      rw [List.length_take]
      omega
    | succ j =>
      simp only [List.getD_cons_succ]
      refine ih j ?_
      simp only [List.length_cons] at hi
      omega

theorem chunkBatches_mem_flatten {l : List α} {u : α} (hu : u ∈ l) :
    ∃ b ∈ chunkBatches l, u ∈ b := by
  have hj := chunkBatches_flatten l
  rw [← hj] at hu
  simpa using (List.mem_flatten.mp hu)

/-! ## Pipeline orchestrator (`process_single_dataset`)

The eight numbered steps of the source, in order:
1 load, 2 clean, 3 enrich, 4 filter (people with emails),
5 corporate-email filtering, 6 consolidate, 7 persist (final CSV),
8 analyze (not checkpointed).  With a checkpoint at integer step `k` the
source resumes with the checkpoint's dataframe and runs step `n` of 3..7
iff `k < n`; `k >= 7` returns immediately; the clean step only exists in
the fresh (no-checkpoint) branch.  `runPipeline` threads an abstract state
through abstract stage functions and records the executed trace. -/

inductive Stage where
  | load
  | clean
  | enrich
  | filt
  | corporate
  | consolidate
  | persist
  | analyze
deriving DecidableEq, Repr

/-- Step number of each stage as in the source's checkpoint numbering. -/
def stageIndex : Stage → Nat
  | .load => 1
  | .clean => 2
  | .enrich => 3
  | .filt => 4
  | .corporate => 5
  | .consolidate => 6
  | .persist => 7
  | .analyze => 8

/-- One conditional stage execution (`if step < n:` in the source),
accumulating the execution trace. -/
def runStage (f : Stage → σ → σ) (cond : Bool) (s : Stage) :
    σ × List Stage → σ × List Stage :=
  fun st => if cond then (f s st.1, st.2 ++ [s]) else st

/-- The stages after the enrich gate: steps 4..7 plus the unconditional
analysis step, applied to a working (state, trace) pair. -/
def runLaterStages (f : Stage → σ → σ) (step : Int) (p : σ × List Stage) :
    σ × List Stage :=
  (runStage f true .analyze
    (runStage f (decide (step < 7)) .persist
      (runStage f (decide (step < 6)) .consolidate
        (runStage f (decide (step < 5)) .corporate
          (runStage f (decide (step < 4)) .filt p)))))

/-- The gated tail of `process_single_dataset`, entered with the working
step counter.  The `if step < 3:` block first searches the dataframe for a
LinkedIn column (`hasCol`); when none of the possible column names exists
the function prints "No LinkedIn column found" and returns — aborting every
remaining stage — and otherwise enriches; steps 4..7 and the analysis step
follow. -/
def runGatedStages (f : Stage → σ → σ) (hasCol : σ → Bool) (step : Int)
    (st : σ) : σ × List Stage :=
  if step < 3 then
    if hasCol st then
      runLaterStages f step (runStage f true .enrich (st, []))
    else (st, [])
  else runLaterStages f step (st, [])

/-- `process_single_dataset`: consult the latest checkpoint; if found at
step `k`, continue from the checkpoint's dataframe (returning immediately
when `k >= 7`); otherwise load and clean the fresh input, checkpointing at
steps 1 and 2, and continue with step counter 2.  `hasCol` is the
`any possible LinkedIn column name in df.columns` test of the step-3
gate. -/
def runPipeline (f : Stage → σ → σ) (hasCol : σ → Bool)
    (ck : Option (Int × σ)) (input : σ) : σ × List Stage :=
  match ck with
  | some (k, st) =>
      if 7 ≤ k then (st, [])
      else runGatedStages f hasCol k st
  | none =>
      let st1 := f .load input
      let st2 := f .clean st1
      let r := runGatedStages f hasCol 2 st2
      (r.1, .load :: .clean :: r.2)

/-- The stages executed by a run, as a function of the checkpoint step. -/
def stagesRun (f : Stage → σ → σ) (hasCol : σ → Bool)
    (ck : Option (Int × σ)) (input : σ) : List Stage :=
  (runPipeline f hasCol ck input).2

theorem runStage_fold (f : Stage → σ → σ) (st : σ) (c : Bool) (s : Stage)
    (p : σ × List Stage) (h : p.1 = p.2.foldl (fun a s' => f s' a) st) :
    (runStage f c s p).1 = (runStage f c s p).2.foldl (fun a s' => f s' a) st := by
  cases c
  · simpa [runStage] using h
  · simp [runStage, List.foldl_append, h]

theorem runLaterStages_fold (f : Stage → σ → σ) (step : Int) (st : σ)
    (p : σ × List Stage) (h : p.1 = p.2.foldl (fun a s' => f s' a) st) :
    (runLaterStages f step p).1 =
      (runLaterStages f step p).2.foldl (fun a s' => f s' a) st := by
  simp only [runLaterStages]
  exact runStage_fold f st _ _ _ (runStage_fold f st _ _ _ (runStage_fold f st _ _ _
    (runStage_fold f st _ _ _ (runStage_fold f st _ _ _ h))))

/-- The final working state of the gated stages is the fold of the executed
trace over the entry state (also over the abort path, whose trace is
empty). -/
theorem runGatedStages_fold (f : Stage → σ → σ) (hasCol : σ → Bool)
    (k : Int) (st : σ) :
    (runGatedStages f hasCol k st).1 =
      (runGatedStages f hasCol k st).2.foldl (fun a s' => f s' a) st := by
  rw [runGatedStages]
  by_cases h3 : k < 3
  · rw [if_pos h3]
    by_cases hc : hasCol st = true
    · rw [if_pos hc]
      exact runLaterStages_fold f k st _
        (runStage_fold f st true .enrich (st, []) rfl)
    · rw [if_neg hc]
      rfl
  · rw [if_neg h3]
    exact runLaterStages_fold f k st (st, []) rfl

/-- Claim C1 as stated is false on the code: a dataset checkpointed at step
1 never executes the clean stage (index 2 > 1), because cleaning lives only
in the fresh-run branch of `process_single_dataset`; a dataset checkpointed
at step 4 resumes at the corporate-email-filtering stage (step 5), not at
the consolidate stage (step 6); and a dataset checkpointed at step 2 whose
dataframe has no LinkedIn column executes no stage at all on resume (the
step-3 gate returns), though every stage 3..8 has index greater than 2. -/
theorem c1_resume_counterexample :
    (Stage.clean ∉ stagesRun (fun _ (n : Nat) => n) (fun _ => true)
        (some ((1 : Int), 0)) 0
      ∧ 1 < stageIndex Stage.clean)
    ∧ ((stagesRun (fun _ (n : Nat) => n) (fun _ => true)
        (some ((4 : Int), 0)) 0).head? = some Stage.corporate
      ∧ Stage.corporate ≠ Stage.consolidate)
    ∧ (stagesRun (fun _ (n : Nat) => n) (fun _ => false)
        (some ((2 : Int), 0)) 0 = []
      ∧ 2 < stageIndex Stage.filt) := by
  refine ⟨⟨?_, by decide⟩, ⟨?_, by decide⟩, ?_, by decide⟩
  · decide
  · decide
  · decide

/-- Claim C1, amended: on resume from an integer checkpoint step `k`, when
`k ≥ 7` the run is a no-op returning the checkpoint state; when `2 ≤ k < 7`
and either `k ≥ 3` or the dataset has a LinkedIn column, the stages
executed are exactly those of steps 3..7 with index greater than `k` plus
the unconditional analysis step, applied in order starting from the
checkpoint's dataset state; a step-2 resume of a dataset without a LinkedIn
column aborts with no further stage, as does a fresh run after load and
clean; the clean stage runs only in fresh runs (so a step-1 checkpoint
skips cleaning); and a checkpoint at step 4 resumes at the
corporate-email-filtering stage. -/
theorem c1_resume_amended {σ : Type} (f : Stage → σ → σ) (hasCol : σ → Bool)
    (k : Int) (st input : σ) :
    (7 ≤ k → runPipeline f hasCol (some (k, st)) input = (st, []))
    ∧ (2 ≤ k → k < 7 → (3 ≤ k ∨ hasCol st = true) →
        (∀ s : Stage, s ∈ stagesRun f hasCol (some (k, st)) input ↔
          (s = Stage.analyze ∨
            (3 ≤ stageIndex s ∧ stageIndex s ≤ 7 ∧ k < stageIndex s)))
        ∧ (runPipeline f hasCol (some (k, st)) input).1 =
            (stagesRun f hasCol (some (k, st)) input).foldl
              (fun a s => f s a) st)
    ∧ (hasCol st = false →
        runPipeline f hasCol (some ((2 : Int), st)) input = (st, []))
    ∧ (hasCol (f .clean (f .load input)) = false →
        runPipeline f hasCol none input =
          (f .clean (f .load input), [Stage.load, Stage.clean]))
    ∧ (stagesRun f hasCol (some ((4 : Int), st)) input).head? =
        some Stage.corporate := by
  refine ⟨?_, ?_, ?_, ?_, ?_⟩
  · intro h
    simp [runPipeline, h]
  · intro h2 h7 hcol
    constructor
    · intro s
      have hk : ¬ (7 ≤ k) := by omega
      simp only [stagesRun, runPipeline, hk, if_false]
      interval_cases k
      · rcases hcol with h3 | hc
        · exfalso
          norm_num at h3
        · cases s <;>
            simp [runGatedStages, runLaterStages, runStage, stageIndex, hc]
      all_goals
        cases s <;>
          simp [runGatedStages, runLaterStages, runStage, stageIndex]
    · have hk : ¬ (7 ≤ k) := by omega
      simp only [stagesRun, runPipeline, hk, if_false]
      exact runGatedStages_fold f hasCol k st
  · intro hc
    have hk : ¬ ((7 : Int) ≤ 2) := by norm_num
    simp only [runPipeline, hk, if_false]
    rw [runGatedStages, if_pos (by norm_num : (2 : Int) < 3), if_neg (by
      rw [hc]
      exact Bool.false_ne_true)]
  · intro hc
    simp only [runPipeline]
    rw [runGatedStages, if_pos (by norm_num : (2 : Int) < 3), if_neg (by
      rw [hc]
      exact Bool.false_ne_true)]
  · have hk : ¬ ((7 : Int) ≤ 4) := by norm_num
    simp only [stagesRun, runPipeline, hk, if_false]
    simp [runGatedStages, runLaterStages, runStage]

/-- Witness for the amended resume claim at checkpoint step 3: the persist
stage (index 7 > 3) is among the executed stages. -/
theorem c1_resume_amended_witness :
    ((2 : Int) ≤ 3 ∧ (3 : Int) < 7 ∧
      ((3 : Int) ≤ 3 ∨ (fun (_ : Nat) => true) 0 = true)) ∧
      Stage.persist ∈ stagesRun (fun _ (n : Nat) => n) (fun _ => true)
        (some ((3 : Int), 0)) 0 :=
  ⟨⟨by norm_num, by norm_num, Or.inl (by norm_num)⟩,
    (((c1_resume_amended (fun _ (n : Nat) => n) (fun _ => true) 3 0 0).2.1
      (by norm_num) (by norm_num) (Or.inl (by norm_num))).1
        Stage.persist).mpr (Or.inr (by decide))⟩

set_option maxRecDepth 40000 in
/-- Claim C2: the batch splitter covers the input exactly once in order,
every batch holds at most `MAX_URLS_PER_BATCH` identifiers, every batch
except possibly the final one is full, an empty input yields zero batches,
and 1200 identifiers split into exactly 3 batches of sizes 500, 500, 200. -/
theorem c2_batch_splitting (l : List String) :
    (chunkBatches l).flatten = l
    ∧ (∀ b ∈ chunkBatches l, b.length ≤ MAX_URLS_PER_BATCH)
    ∧ (∀ i, i + 1 < (chunkBatches l).length →
        ((chunkBatches l).getD i []).length = MAX_URLS_PER_BATCH)
    ∧ chunkBatches ([] : List String) = []
    ∧ (chunkBatches (List.range 1200)).map List.length = [500, 500, 200]
    ∧ (chunkBatches (List.range 1200)).length = 3 := by
  refine ⟨chunkBatches_flatten l, chunkBatches_length_le l,
    chunkBatches_nonfinal_full l, chunkBatches_nil, ?_, ?_⟩
  · decide
  · decide

set_option maxRecDepth 40000 in
/-- Witness for the batch-splitting claim: the first of the two batches of a
501-identifier input is full. -/
theorem c2_batch_splitting_witness :
    0 + 1 < (chunkBatches ((List.range 501).map toString)).length
    ∧ ((chunkBatches ((List.range 501).map toString)).getD 0 []).length =
        MAX_URLS_PER_BATCH :=
  ⟨by decide, (c2_batch_splitting ((List.range 501).map toString)).2.2.1 0
    (by decide)⟩

/-! ## Checkpoint store
(`save_checkpoint` / `load_checkpoint` / `get_latest_checkpoint`)

A checkpoint artifact lives at `checkpoints/{dataset_name}_step_{step}.pkl`.
The store is modelled as an association list keyed by `(dataset, step)` —
the two fields interpolated into the filename.  The `step` written by the
source is either a Python int (steps 1..7) or a descriptive string such as
`"3_batch_4"` or `"error_<ts>"`; `get_latest_checkpoint` recovers the step
from the filename with `int(...)`, which succeeds exactly on the integer
steps, so `StepKey` keeps the two shapes apart.  The pickled dict's
`timestamp` field is wall-clock metadata and is not modelled. -/

inductive StepKey where
  | ordinal (k : Int)
  | label (s : String)
deriving DecidableEq, Repr

structure Checkpoint (σ : Type) where
  dataset_name : String
  step : StepKey
  dataframe : σ
deriving DecidableEq, Repr

/-- A checkpoint directory: one entry per artifact file. -/
abbrev Store (σ : Type) := List ((String × StepKey) × Checkpoint σ)

def emptyStore : Store σ := []

/-- `save_checkpoint`: serialize `(dataset_name, step, dataframe)` to the
file keyed by `(dataset, step)`, replacing any previous artifact there. -/
def save_checkpoint (dataset : String) (step : StepKey) (df : σ)
    (S : Store σ) : Store σ :=
  ((dataset, step), ⟨dataset, step, df⟩) ::
    S.filter (fun e => decide (e.1 ≠ (dataset, step)))

/-- `load_checkpoint`: read the artifact at the exact `(dataset, step)` key,
or `None` when the file does not exist. -/
def load_checkpoint (dataset : String) (step : StepKey) (S : Store σ) :
    Option (Checkpoint σ) :=
  (S.find? (fun e => decide (e.1 = (dataset, step)))).map (fun e => e.2)

/-- `get_latest_checkpoint`: glob the dataset's artifacts; if none exist
return `None`; otherwise collect the steps whose filename field parses as an
integer (`int(...)` throws on label steps, which are skipped) and load the
artifact at the numerically highest one, or `None` when no integer step
exists. -/
def get_latest_checkpoint (dataset : String) (S : Store σ) :
    Option (Checkpoint σ) :=
  let files := S.filter (fun e => decide (e.1.1 = dataset))
  if files.isEmpty then none
  else
    let step_numbers := files.filterMap (fun e =>
      match e.1.2 with
      | .ordinal k => some k
      | .label _ => none)
    match step_numbers.max? with
    | some latest => load_checkpoint dataset (.ordinal latest) S
    | none => none

theorem load_save_same (dataset : String) (step : StepKey) (df : σ)
    (S : Store σ) :
    load_checkpoint dataset step (save_checkpoint dataset step df S) =
      some ⟨dataset, step, df⟩ := by
  simp [load_checkpoint, save_checkpoint, List.find?_cons]

theorem find?_filter_of_imp (p q : α → Bool) (l : List α)
    (h : ∀ a, p a = true → q a = true) :
    (l.filter q).find? p = l.find? p := by
  induction l with
  | nil => rfl
  | cons a as ih =>
    by_cases hq : q a = true
    · rw [List.filter_cons_of_pos hq]
      rw [List.find?_cons, List.find?_cons]
      cases hp : p a
      · exact ih
      · rfl
    · rw [List.filter_cons_of_neg hq]
      rw [List.find?_cons]
      cases hp : p a
      · exact ih
      · exact absurd (h a hp) hq

theorem load_save_other (dataset d : String) (step s : StepKey) (df : σ)
    (S : Store σ) (h : (d, s) ≠ (dataset, step)) :
    load_checkpoint d s (save_checkpoint dataset step df S) =
      load_checkpoint d s S := by
  simp only [load_checkpoint, save_checkpoint]
  rw [List.find?_cons]
  have hp : (decide ((((dataset, step),
      (⟨dataset, step, df⟩ : Checkpoint σ)) :
        (String × StepKey) × Checkpoint σ).1 = (d, s))) = false := by
    refine decide_eq_false ?_
    intro he
    exact h (by simp at he; simp [he])
  rw [hp]
  congr 1
  refine find?_filter_of_imp _ _ S ?_
  intro e he
  simp only [decide_eq_true_eq] at he
  simp only [decide_eq_true_eq]
  rw [he]
  exact h

/-- Saving the same artifact twice at the same key leaves the directory in
exactly the state of a single save. -/
theorem save_idempotent (dataset : String) (step : StepKey) (df : σ)
    (S : Store σ) :
    save_checkpoint dataset step df (save_checkpoint dataset step df S) =
      save_checkpoint dataset step df S := by
  simp only [save_checkpoint]
  congr 1
  rw [List.filter_cons_of_neg (by simp)]
  rw [List.filter_filter]
  refine List.filter_congr ?_
  intro e _
  rw [Bool.and_self]

/-- The maximum-selection core: if the store holds an artifact for `dataset`
at integer step `k` and no integer step for `dataset` exceeds `k`, then the
latest-checkpoint scan loads the exact key `(dataset, k)`. -/
theorem get_latest_eq_load_of_max (dataset : String) (S : Store σ) (k : Int)
    (hmem : ∃ e ∈ S, e.1 = (dataset, StepKey.ordinal k))
    (hmax : ∀ e ∈ S, ∀ k', e.1 = (dataset, StepKey.ordinal k') → k' ≤ k) :
    get_latest_checkpoint dataset S =
      load_checkpoint dataset (.ordinal k) S := by
  obtain ⟨e₀, he₀, hkey₀⟩ := hmem
  have he₀f : e₀ ∈ S.filter (fun e => decide (e.1.1 = dataset)) := by
    refine List.mem_filter.mpr ⟨he₀, ?_⟩
    simp [hkey₀]
  simp only [get_latest_checkpoint]
  have hne : (S.filter (fun e => decide (e.1.1 = dataset))).isEmpty = false := by
    rw [List.isEmpty_eq_false_iff_exists_mem]
    exact ⟨e₀, he₀f⟩
  rw [hne]
  simp only [Bool.false_eq_true, if_false]
  have hmaxeq : ((S.filter (fun e => decide (e.1.1 = dataset))).filterMap
      (fun e => match e.1.2 with
        | .ordinal k => some k
        | .label _ => none)).max? = some k := by
    have : Std.Antisymm (α := Int) (· ≤ ·) := ⟨fun h h' => le_antisymm h h'⟩
    rw [List.max?_eq_some_iff]
    · constructor
      · refine List.mem_filterMap.mpr ⟨e₀, he₀f, ?_⟩
        rw [hkey₀]
      · intro b hb
        obtain ⟨e, hef, heb⟩ := List.mem_filterMap.mp hb
        obtain ⟨heS, hed⟩ := List.mem_filter.mp hef
        simp only [decide_eq_true_eq] at hed
        refine hmax e heS b ?_
        cases hk : e.1.2 with
        | ordinal k' =>
          rw [hk] at heb
          simp only [Option.some.injEq] at heb
          subst heb
          rw [Prod.ext_iff]
          exact ⟨hed, hk⟩
        | label s =>
          rw [hk] at heb
          simp at heb
    · exact fun a => le_refl a
    · intro a b
      rcases le_total a b with hab | hab
      · right
        exact max_eq_right hab
      · left
        exact max_eq_left hab
    · intro a b c
      exact max_le_iff
  rw [hmaxeq]

/-- Sequential saves of states `xs 0 .. xs N` at integer steps `0..N`,
starting from an empty checkpoint directory. -/
def seqSaves (dataset : String) (xs : Nat → σ) : Nat → Store σ
  | 0 => save_checkpoint dataset (.ordinal 0) (xs 0) emptyStore
  | n + 1 => save_checkpoint dataset (.ordinal ((n : Int) + 1)) (xs (n + 1))
      (seqSaves dataset xs n)

theorem seqSaves_keys (dataset : String) (xs : Nat → σ) (N : Nat) :
    ∀ e ∈ seqSaves dataset xs N, ∃ i : Nat, i ≤ N ∧
      e.1 = (dataset, StepKey.ordinal i) := by
  induction N with
  | zero =>
    intro e he
    simp only [seqSaves, save_checkpoint, emptyStore, List.filter_nil] at he
    rcases List.mem_singleton.mp he with rfl
    exact ⟨0, le_refl 0, rfl⟩
  | succ n ih =>
    intro e he
    simp only [seqSaves, save_checkpoint] at he
    rcases List.mem_cons.mp he with rfl | he
    · exact ⟨n + 1, le_refl _, by push_cast; rfl⟩
    · obtain ⟨i, hi, hkey⟩ := ih e (List.mem_filter.mp he).1
      exact ⟨i, Nat.le_succ_of_le hi, hkey⟩

theorem get_latest_seqSaves (dataset : String) (xs : Nat → σ) (N : Nat) :
    get_latest_checkpoint dataset (seqSaves dataset xs N) =
      some ⟨dataset, StepKey.ordinal (N : Int), xs N⟩ := by
  have hform : ∃ S₀, seqSaves dataset xs N =
      save_checkpoint dataset (.ordinal (N : Int)) (xs N) S₀ := by
    cases N with
    | zero => exact ⟨emptyStore, rfl⟩
    | succ n => exact ⟨seqSaves dataset xs n, by push_cast; rfl⟩
  obtain ⟨S₀, hS₀⟩ := hform
  have hload : load_checkpoint dataset (.ordinal (N : Int))
      (seqSaves dataset xs N) = some ⟨dataset, StepKey.ordinal (N : Int), xs N⟩ := by
    rw [hS₀]
    exact load_save_same dataset _ (xs N) S₀
  have hmem : ∃ e ∈ seqSaves dataset xs N,
      e.1 = (dataset, StepKey.ordinal (N : Int)) := by
    refine ⟨((dataset, StepKey.ordinal (N : Int)),
      ⟨dataset, StepKey.ordinal (N : Int), xs N⟩), ?_, rfl⟩
    rw [hS₀]
    exact List.mem_cons_self _ _
  have hmax : ∀ e ∈ seqSaves dataset xs N, ∀ k',
      e.1 = (dataset, StepKey.ordinal k') → k' ≤ (N : Int) := by
    intro e he k' hkey
    obtain ⟨i, hi, hkey'⟩ := seqSaves_keys dataset xs N e he
    rw [hkey] at hkey'
    have : StepKey.ordinal k' = StepKey.ordinal (i : Int) := by
      have := congrArg Prod.snd hkey'
      simpa using this
    have hk' : k' = (i : Int) := by
      injection this
    rw [hk']
    exact_mod_cast hi
  rw [get_latest_eq_load_of_max dataset _ (N : Int) hmem hmax, hload]

/-- Claim C7: checkpoint round-trip and idempotence.  Saving a state at an
integer step into an empty directory and loading the latest yields exactly
that state; saving the same state twice at the same step equals saving it
once; after sequential saves at steps 0..N the latest checkpoint is the
step-N state. -/
theorem c7_checkpoint_roundtrip {σ : Type} (dataset : String) (k : Int)
    (df : σ) (S : Store σ) (step : StepKey) (xs : Nat → σ) (N : Nat) :
    ((get_latest_checkpoint dataset
        (save_checkpoint dataset (.ordinal k) df emptyStore)).map
          Checkpoint.dataframe = some df)
    ∧ (save_checkpoint dataset step df (save_checkpoint dataset step df S) =
        save_checkpoint dataset step df S)
    ∧ ((get_latest_checkpoint dataset (seqSaves dataset xs N)).map
        Checkpoint.dataframe = some (xs N)) := by
  refine ⟨?_, save_idempotent dataset step df S, ?_⟩
  · have hmem : ∃ e ∈ save_checkpoint dataset (.ordinal k) df
        (emptyStore : Store σ), e.1 = (dataset, StepKey.ordinal k) :=
      ⟨((dataset, StepKey.ordinal k), ⟨dataset, StepKey.ordinal k, df⟩),
        List.mem_cons_self _ _, rfl⟩
    have hmax : ∀ e ∈ save_checkpoint dataset (.ordinal k) df
        (emptyStore : Store σ), ∀ k',
          e.1 = (dataset, StepKey.ordinal k') → k' ≤ k := by
      intro e he k' hkey
      simp only [save_checkpoint, emptyStore, List.filter_nil] at he
      rcases List.mem_singleton.mp he with rfl
      have := congrArg Prod.snd hkey
      simp only at this
      injection this with h'
      omega
    rw [get_latest_eq_load_of_max dataset _ k hmem hmax,
      load_save_same dataset _ df emptyStore]
    rfl
  · rw [get_latest_seqSaves dataset xs N]
    rfl

theorem filterMap_filter_of_none (f : α → Option β) (q : α → Bool)
    (l : List α) (h : ∀ a ∈ l, q a = false → f a = none) :
    (l.filter q).filterMap f = l.filterMap f := by
  induction l with
  | nil => rfl
  | cons a as ih =>
    have ih' := ih (fun a' ha' hq => h a' (List.mem_cons_of_mem _ ha') hq)
    cases hq : q a
    · rw [List.filter_cons_of_neg (by simp [hq]), List.filterMap_cons,
        h a (List.mem_cons_self _ _) hq, ih']
    · rw [List.filter_cons_of_pos (by simp [hq]), List.filterMap_cons,
        List.filterMap_cons, ih']

/-- Saving a label-keyed checkpoint (an intra-stage sub-batch marker or an
error checkpoint) never changes the result of the latest-ordinal scan. -/
theorem get_latest_save_label (dataset lbl : String) (df : σ) (S : Store σ) :
    get_latest_checkpoint dataset
        (save_checkpoint dataset (.label lbl) df S) =
      get_latest_checkpoint dataset S := by
  have hswap : (S.filter
        (fun e => decide (e.1 ≠ (dataset, StepKey.label lbl)))).filter
          (fun e => decide (e.1.1 = dataset)) =
      (S.filter (fun e => decide (e.1.1 = dataset))).filter
        (fun e => decide (e.1 ≠ (dataset, StepKey.label lbl))) := by
    rw [List.filter_filter, List.filter_filter]
    refine List.filter_congr ?_
    intro e _
    rw [Bool.and_comm]
  have hnums : ((S.filter (fun e => decide (e.1.1 = dataset))).filter
        (fun e => decide (e.1 ≠ (dataset, StepKey.label lbl)))).filterMap
          (fun e => match e.1.2 with
            | StepKey.ordinal k => some k
            | StepKey.label _ => none) =
      (S.filter (fun e => decide (e.1.1 = dataset))).filterMap
        (fun e => match e.1.2 with
          | StepKey.ordinal k => some k
          | StepKey.label _ => none) := by
    refine filterMap_filter_of_none _ _ _ ?_
    intro a _ hq
    simp only [decide_not, Bool.not_eq_false', decide_eq_true_eq] at hq
    rw [hq]
  simp only [get_latest_checkpoint, save_checkpoint]
  rw [List.filter_cons_of_pos (by simp)]
  simp only [List.isEmpty_cons, List.filterMap_cons, hswap, hnums]
  cases hE : (S.filter (fun e => decide (e.1.1 = dataset))).isEmpty with
  | true =>
    have hnil : S.filter (fun e => decide (e.1.1 = dataset)) = [] :=
      List.isEmpty_iff.mp hE
    simp [hnil]
  | false =>
    simp only [Bool.false_eq_true, if_false]
    cases hmax : ((S.filter (fun e => decide (e.1.1 = dataset))).filterMap
        (fun e => match e.1.2 with
          | StepKey.ordinal k => some k
          | StepKey.label _ => none)).max? with
    | none => rfl
    | some latest =>
      exact load_save_other dataset dataset (StepKey.label lbl)
        (StepKey.ordinal latest) df S (by simp)

/-- A label-keyed checkpoint stays loadable by its exact key. -/
theorem load_label_save (dataset lbl : String) (df : σ) (S : Store σ) :
    load_checkpoint dataset (.label lbl)
        (save_checkpoint dataset (.label lbl) df S) =
      some ⟨dataset, .label lbl, df⟩ :=
  load_save_same dataset _ df S

/-- Claim C8: the latest-checkpoint scan returns the artifact with the
numerically highest integer step of the dataset (`None` when the dataset has
no artifacts); label-step checkpoints are invisible to the scan yet remain
loadable by exact key. -/
theorem c8_latest_selection {σ : Type} (dataset : String) (S : Store σ)
    (k : Int) (c : Checkpoint σ) (lbl : String) (df : σ) :
    (get_latest_checkpoint dataset (emptyStore : Store σ) = none)
    ∧ ((∀ e ∈ S, e.1.1 ≠ dataset) → get_latest_checkpoint dataset S = none)
    ∧ (load_checkpoint dataset (.ordinal k) S = some c →
        (∀ e ∈ S, ∀ k', e.1 = (dataset, StepKey.ordinal k') → k' ≤ k) →
        get_latest_checkpoint dataset S = some c)
    ∧ (get_latest_checkpoint dataset
        (save_checkpoint dataset (.label lbl) df S) =
          get_latest_checkpoint dataset S)
    ∧ (load_checkpoint dataset (.label lbl)
        (save_checkpoint dataset (.label lbl) df S) =
          some ⟨dataset, .label lbl, df⟩) := by
  refine ⟨rfl, ?_, ?_, get_latest_save_label dataset lbl df S,
    load_label_save dataset lbl df S⟩
  · intro hnone
    have hnil : S.filter (fun e => decide (e.1.1 = dataset)) = [] := by
      rw [List.filter_eq_nil_iff]
      intro e he
      simp only [decide_eq_true_eq]
      exact hnone e he
    simp [get_latest_checkpoint, hnil]
  · intro hload hmax
    have hmem : ∃ e ∈ S, e.1 = (dataset, StepKey.ordinal k) := by
      simp only [load_checkpoint] at hload
      obtain ⟨e, hfind, -⟩ := Option.map_eq_some'.mp hload
      refine ⟨e, List.mem_of_find?_eq_some hfind, ?_⟩
      have := List.find?_some hfind
      simpa using this
    rw [get_latest_eq_load_of_max dataset S k hmem hmax, hload]

/-- Witness for the latest-checkpoint selection claim: a directory with no
artifact for the dataset yields `None`. -/
theorem c8_latest_selection_witness :
    (∀ e ∈ (emptyStore : Store String), e.1.1 ≠ "authors") ∧
      get_latest_checkpoint "authors" (emptyStore : Store String) = none :=
  ⟨by simp [emptyStore],
    (c8_latest_selection "authors" (emptyStore : Store String) 0
      ⟨"authors", .ordinal 0, "df"⟩ "3_batch_2" "df").2.1
        (by simp [emptyStore])⟩

/-! ## Remote job client (`submit_bulk_job` / `poll_job_status` /
`wait_for_job_completion`)

HTTP traffic is modelled by response values; a raised exception inside the
`try` block is `netError`. -/

/-- A contact entry of a result: `contact.get('type')`,
`contact.get('value')`, `contact.get('subType')`.  The `type` and `subType`
keys may be absent (`None`). -/
structure Contact where
  type : Option String
  value : String
  subType : Option String
deriving DecidableEq, Repr

/-- One element of a job's `results` list: `result.get('linkedin_url')`,
the truthiness of `result.get('success')`, `result.get('error')`, and
`result.get('data', {}).get('contacts', [])` flattened to a list. -/
structure ResultEntry where
  linkedin_url : Option String
  success : Bool
  error : Option String
  contacts : List Contact
deriving DecidableEq, Repr

/-- The JSON body of a poll response: `status`, progress counters, and the
`results` list (empty until completion). -/
structure Snapshot where
  status : String
  processed : Nat
  successful : Nat
  failed : Nat
  results : List ResultEntry
deriving DecidableEq, Repr

/-- Response to the bulk submission POST: an HTTP status plus the
`data.get('job_id')` field of the 200 body, or a network exception. -/
inductive SubmitResp where
  | http (status : Nat) (jobId : Option String)
  | netError
deriving DecidableEq, Repr

/-- `submit_bulk_job`: 200 yields `data.get('job_id')`; 401 (authentication
error) yields `None`; 402 (insufficient credits) yields `None`; every other
status and a network exception also yield `None`. -/
def submit_bulk_job : SubmitResp → Option String
  | .http status jobId =>
    if status = 200 then jobId
    else if status = 401 then none
    else if status = 402 then none
    else none
  | .netError => none

/-- Response to a poll GET. -/
inductive PollResp where
  | http (status : Nat) (body : Snapshot)
  | netError
deriving DecidableEq, Repr

/-- `poll_job_status`: 200 returns the JSON body; 404 (job not found or
expired) returns `None`; every other status and a network exception also
return `None`. -/
def poll_job_status : PollResp → Option Snapshot
  | .http status body =>
    if status = 200 then some body
    else if status = 404 then none
    else none
  | .netError => none

/-- A terminal job status (`status in ['completed', 'error']`). -/
def terminalStatus (s : Snapshot) : Prop :=
  s.status = "completed" ∨ s.status = "error"

instance (s : Snapshot) : Decidable (terminalStatus s) := by
  unfold terminalStatus
  infer_instance

/-- The polling loop of `wait_for_job_completion`, entered at iteration `n`.
Iteration `n` runs at elapsed wall-clock `POLL_INTERVAL * n` seconds (the
loop sleeps `POLL_INTERVAL` seconds at the end of each iteration; poll
latency is idealized to zero).  The body: give up (timeout) once the elapsed
time exceeds `MAX_POLL_TIME`; otherwise poll, abort when the poll yields no
snapshot, return the snapshot when its status is terminal, else sleep and
repeat. -/
def waitFrom (polls : Nat → PollResp) (n : Nat) : Option Snapshot :=
  if POLL_INTERVAL * n > MAX_POLL_TIME then none
  else
    match poll_job_status (polls n) with
    | none => none
    | some s =>
      if terminalStatus s then some s
      else waitFrom polls (n + 1)
termination_by (MAX_POLL_TIME / POLL_INTERVAL + 1) - n
decreasing_by
  simp only [POLL_INTERVAL, MAX_POLL_TIME, gt_iff_lt, not_lt] at *
  omega

/-- `wait_for_job_completion`, given the stream of poll responses. -/
def wait_for_job_completion (polls : Nat → PollResp) : Option Snapshot :=
  waitFrom polls 0

theorem waitFrom_some_spec (polls : Nat → PollResp) :
    ∀ fuel n s, MAX_POLL_TIME / POLL_INTERVAL + 1 - n ≤ fuel →
      waitFrom polls n = some s →
      terminalStatus s ∧ ∃ m, n ≤ m ∧ POLL_INTERVAL * m ≤ MAX_POLL_TIME ∧
        poll_job_status (polls m) = some s := by
  intro fuel
  induction fuel with
  | zero =>
    intro n s hfuel h
    rw [waitFrom] at h
    by_cases ht : POLL_INTERVAL * n > MAX_POLL_TIME
    · rw [if_pos ht] at h
      exact absurd h (by simp)
    · exfalso
      simp only [POLL_INTERVAL, MAX_POLL_TIME, gt_iff_lt, not_lt] at ht hfuel
      omega
  | succ fuel ih =>
    intro n s hfuel h
    rw [waitFrom] at h
    by_cases ht : POLL_INTERVAL * n > MAX_POLL_TIME
    · rw [if_pos ht] at h
      exact absurd h (by simp)
    · rw [if_neg ht] at h
      cases hp : poll_job_status (polls n) with
      | none =>
        rw [hp] at h
        exact absurd h (by simp)
      | some s' =>
        simp only [hp] at h
        by_cases hterm : terminalStatus s'
        · rw [if_pos hterm] at h
          have hs : s' = s := by injection h
          subst hs
          exact ⟨hterm, n, le_refl n, not_lt.mp ht, hp⟩
        · rw [if_neg hterm] at h
          obtain ⟨h1, m, hm, h2, h3⟩ := ih (n + 1) s
            (by simp only [POLL_INTERVAL, MAX_POLL_TIME, gt_iff_lt, not_lt]
                  at ht hfuel ⊢
                omega) h
          exact ⟨h1, m, by omega, h2, h3⟩

theorem waitFrom_none_of_nonterminal (polls : Nat → PollResp)
    (h : ∀ m, POLL_INTERVAL * m ≤ MAX_POLL_TIME →
      ∃ s, poll_job_status (polls m) = some s ∧ ¬ terminalStatus s) :
    ∀ fuel n, MAX_POLL_TIME / POLL_INTERVAL + 1 - n ≤ fuel →
      waitFrom polls n = none := by
  intro fuel
  induction fuel with
  | zero =>
    intro n hfuel
    rw [waitFrom]
    by_cases ht : POLL_INTERVAL * n > MAX_POLL_TIME
    · rw [if_pos ht]
    · exfalso
      simp only [POLL_INTERVAL, MAX_POLL_TIME, gt_iff_lt, not_lt] at ht hfuel
      omega
  | succ fuel ih =>
    intro n hfuel
    rw [waitFrom]
    by_cases ht : POLL_INTERVAL * n > MAX_POLL_TIME
    · rw [if_pos ht]
    · rw [if_neg ht]
      obtain ⟨s, hp, hnt⟩ := h n (not_lt.mp ht)
      rw [hp]
      simp only [if_neg hnt]
      refine ih (n + 1) ?_
      simp only [POLL_INTERVAL, MAX_POLL_TIME, gt_iff_lt, not_lt] at ht hfuel ⊢
      omega

theorem waitFrom_reaches (polls : Nat → PollResp) (k : Nat) (s : Snapshot)
    (hpre : ∀ m, m < k →
      ∃ s', poll_job_status (polls m) = some s' ∧ ¬ terminalStatus s')
    (hk : poll_job_status (polls k) = some s) (hs : terminalStatus s)
    (ht : POLL_INTERVAL * k ≤ MAX_POLL_TIME) :
    ∀ d n, k - n = d → n ≤ k → waitFrom polls n = some s := by
  intro d
  induction d with
  | zero =>
    intro n hd hn
    have hnk : n = k := by omega
    subst hnk
    rw [waitFrom, if_neg (not_lt.mpr ht), hk]
    simp only [if_pos hs]
  | succ d ih =>
    intro n hd hn
    have hnk : n < k := by omega
    obtain ⟨s', hp, hnt⟩ := hpre n hnk
    have htn : ¬ POLL_INTERVAL * n > MAX_POLL_TIME := by
      simp only [POLL_INTERVAL, MAX_POLL_TIME, gt_iff_lt, not_lt] at ht ⊢
      omega
    rw [waitFrom, if_neg htn, hp]
    simp only [if_neg hnt]
    exact ih (n + 1) (by omega) (by omega)

theorem waitFrom_none_of_poll_failure (polls : Nat → PollResp) (k : Nat)
    (hpre : ∀ m, m < k →
      ∃ s', poll_job_status (polls m) = some s' ∧ ¬ terminalStatus s')
    (hk : poll_job_status (polls k) = none)
    (ht : POLL_INTERVAL * k ≤ MAX_POLL_TIME) :
    ∀ d n, k - n = d → n ≤ k → waitFrom polls n = none := by
  intro d
  induction d with
  | zero =>
    intro n hd hn
    have hnk : n = k := by omega
    subst hnk
    rw [waitFrom, if_neg (not_lt.mpr ht), hk]
  | succ d ih =>
    intro n hd hn
    have hnk : n < k := by omega
    obtain ⟨s', hp, hnt⟩ := hpre n hnk
    have htn : ¬ POLL_INTERVAL * n > MAX_POLL_TIME := by
      simp only [POLL_INTERVAL, MAX_POLL_TIME, gt_iff_lt, not_lt] at ht ⊢
      omega
    rw [waitFrom, if_neg htn, hp]
    simp only [if_neg hnt]
    exact ih (n + 1) (by omega) (by omega)

/-- Claim C5 as stated is false on the code: a single non-200, non-404 poll
response (here HTTP 500 on the first poll) terminates the polling loop —
`poll_job_status` returns `None` for it and `wait_for_job_completion`
returns `None` immediately, even though every later poll would have
reported a completed job (as the shifted stream shows). -/
theorem c5_poll_counterexample :
    poll_job_status (.http 500 ⟨"processing", 0, 0, 0, []⟩) = none
    ∧ wait_for_job_completion (fun n => if n = 0
        then .http 500 ⟨"processing", 0, 0, 0, []⟩
        else .http 200 ⟨"completed", 1, 1, 0, []⟩) = none
    ∧ wait_for_job_completion (fun n => if n + 1 = 0
        then .http 500 ⟨"processing", 0, 0, 0, []⟩
        else .http 200 ⟨"completed", 1, 1, 0, []⟩) =
          some ⟨"completed", 1, 1, 0, []⟩ := by
  refine ⟨rfl, ?_, ?_⟩
  · rw [wait_for_job_completion, waitFrom]
    norm_num [POLL_INTERVAL, MAX_POLL_TIME, poll_job_status]
  · rw [wait_for_job_completion, waitFrom]
    norm_num [POLL_INTERVAL, MAX_POLL_TIME, poll_job_status, terminalStatus]

/-- Claim C5, amended: a 404 poll response is classified as job expired and
yields no snapshot, but so does every other non-200 response (and a network
error); the first poll that yields no snapshot terminates the polling loop —
the job is abandoned and treated as failed, with no retry at this layer. -/
theorem c5_poll_amended (polls : Nat → PollResp) (k : Nat) (body : Snapshot)
    (status : Nat) :
    (status ≠ 200 → poll_job_status (.http status body) = none)
    ∧ poll_job_status .netError = none
    ∧ ((∀ m, m < k →
          ∃ s', poll_job_status (polls m) = some s' ∧ ¬ terminalStatus s') →
        poll_job_status (polls k) = none →
        POLL_INTERVAL * k ≤ MAX_POLL_TIME →
        wait_for_job_completion polls = none) := by
  refine ⟨?_, rfl, ?_⟩
  · intro h
    rw [poll_job_status, if_neg h]
    by_cases h4 : status = 404
    · rw [if_pos h4]
    · rw [if_neg h4]
  · intro hpre hk ht
    exact waitFrom_none_of_poll_failure polls k hpre hk ht (k - 0) 0 rfl
      (Nat.zero_le k)

/-- Witness for the amended poll-classification claim: a 404 response on the
first poll yields no snapshot and abandons the job. -/
theorem c5_poll_amended_witness :
    ((404 : Nat) ≠ 200 ∧
      poll_job_status (.http 404 ⟨"processing", 0, 0, 0, []⟩) = none)
    ∧ wait_for_job_completion (fun _ => .http 404 ⟨"processing", 0, 0, 0, []⟩)
        = none :=
  ⟨⟨by decide,
    (c5_poll_amended (fun _ => .http 404 ⟨"processing", 0, 0, 0, []⟩) 0
      ⟨"processing", 0, 0, 0, []⟩ 404).1 (by decide)⟩,
    (c5_poll_amended (fun _ => .http 404 ⟨"processing", 0, 0, 0, []⟩) 0
      ⟨"processing", 0, 0, 0, []⟩ 404).2.2
        (by intro m hm; omega)
        ((c5_poll_amended (fun _ => .http 404 ⟨"processing", 0, 0, 0, []⟩) 0
          ⟨"processing", 0, 0, 0, []⟩ 404).1 (by decide))
        (by norm_num [POLL_INTERVAL, MAX_POLL_TIME])⟩

/-! ## Result parsing (`parse_bulk_result`)

Both files define the same function for the status/email/phone columns (the
async file additionally parses social profiles, not modelled here). -/

/-- The flat column dictionary produced by `parse_bulk_result`; `none`
means the key is absent from the returned dict (the error branch returns
only the status key). -/
structure Parsed where
  status : String
  workEmail : Option String
  personalEmail : Option String
  phone : Option String
deriving DecidableEq, Repr

/-- The contact loop of `parse_bulk_result`: walk the contacts in order,
sending `type == 'email'` with `subType == 'work'` to the work list, every
other email (personal, missing or other subType) to the personal list, and
`type == 'phone'` to the phone list. -/
def collectContacts : List Contact → List String × List String × List String
  | [] => ([], [], [])
  | c :: cs =>
    let rest := collectContacts cs
    if c.type = some "email" then
      if c.subType = some "work" then (c.value :: rest.1, rest.2.1, rest.2.2)
      else (rest.1, c.value :: rest.2.1, rest.2.2)
    else if c.type = some "phone" then (rest.1, rest.2.1, c.value :: rest.2.2)
    else rest

/-- `parse_bulk_result`: a falsy success flag yields only an error status;
otherwise the contact lists are joined with `'; '` and the status reports
`'Success'` or `'No contacts found'`. -/
def parse_bulk_result (r : ResultEntry) : Parsed :=
  if !r.success then
    { status := "Error: " ++ r.error.getD "Unknown error"
      workEmail := none
      personalEmail := none
      phone := none }
  else
    let c := collectContacts r.contacts
    { status := if r.contacts.isEmpty then "No contacts found" else "Success"
      workEmail := some (String.intercalate "; " c.1)
      personalEmail := some (String.intercalate "; " c.2.1)
      phone := some (String.intercalate "; " c.2.2) }

/-- The per-row enrichment columns initialized by the enrichment loop. -/
structure RowCols where
  status : String
  workEmail : String
  personalEmail : String
  phone : String
deriving DecidableEq, Repr

def blankRow : RowCols := ⟨"", "", "", ""⟩

/-- `for col, value in parsed_data.items(): if col in df.columns:
df.loc[idx, col] = value` — only the keys present in the parsed dict
overwrite the row's columns. -/
def applyParsed (row : RowCols) (p : Parsed) : RowCols :=
  { status := p.status
    workEmail := p.workEmail.getD row.workEmail
    personalEmail := p.personalEmail.getD row.personalEmail
    phone := p.phone.getD row.phone }

/-! ## The enrichment loop (`enrich_with_clado`) -/

/-- Python truthiness of a LinkedIn cell (`pd.notna(x) and x`): a missing
value or the empty string is falsy. -/
def truthyUrl : Option String → Option String
  | none => none
  | some u => if u = "" then none else some u

def validUrls (rows : List (Option String)) : List String :=
  rows.filterMap truthyUrl

/-- The `for idx, row in df.iterrows()` walk that fills `url_to_index`,
carrying the running row index. -/
def urlIndexFrom (i : Nat) : List (Option String) → List (String × Nat)
  | [] => []
  | o :: rest =>
    match truthyUrl o with
    | some u => (u, i) :: urlIndexFrom (i + 1) rest
    | none => urlIndexFrom (i + 1) rest

/-- `url_to_index`, built in row order.  A Python dict assignment
overwrites, so `lookupUrl` returns the last row index holding the url. -/
def urlIndex (rows : List (Option String)) : List (String × Nat) :=
  urlIndexFrom 0 rows

def lookupUrl (rows : List (Option String)) (u : String) : Option Nat :=
  ((urlIndex rows).reverse.find? (fun e => decide (e.1 = u))).map
    (fun e => e.2)

/-- Column initialization plus the first row walk, which marks rows without
a truthy LinkedIn URL as `'No LinkedIn URL'`. -/
def initRows (rows : List (Option String)) : List RowCols :=
  rows.map (fun o => match truthyUrl o with
    | some _ => blankRow
    | none => { blankRow with status := "No LinkedIn URL" })

def setRow (m : List RowCols) (i : Nat) (f : RowCols → RowCols) :
    List RowCols :=
  match m.get? i with
  | some r => m.set i (f r)
  | none => m

/-- `for url in batch_urls: if url in url_to_index: df.loc[idx,
'Enrichment Status'] = s`. -/
def markBatch (rows : List (Option String)) (b : List String) (s : String)
    (m : List RowCols) : List RowCols :=
  b.foldl (fun m u =>
    match lookupUrl rows u with
    | some i => setRow m i (fun r => { r with status := s })
    | none => m) m

/-- The body of the result loop: `if linkedin_url and linkedin_url in
url_to_index: ...merge parse_bulk_result(result) into row idx...`. -/
def applyOneResult (rows : List (Option String)) (r : ResultEntry)
    (m : List RowCols) : List RowCols :=
  match truthyUrl r.linkedin_url with
  | some u =>
    match lookupUrl rows u with
    | some i => setRow m i (fun row => applyParsed row (parse_bulk_result r))
    | none => m
  | none => m

/-- `for result in batch_results: ...`. -/
def applyResults (rows : List (Option String)) (results : List ResultEntry)
    (m : List RowCols) : List RowCols :=
  results.foldl (fun m r => applyOneResult rows r m) m

/-- The body of the batch loop for batch index `i` holding identifiers `b`:
submit; on failure mark and continue; else wait for the job, merging the
results on a snapshot and marking the batch failed otherwise. -/
def batchStep (rows : List (Option String)) (submitO : Nat → SubmitResp)
    (jobO : Nat → Option Snapshot) (i : Nat) (b : List String)
    (m : List RowCols) : List RowCols :=
  match submit_bulk_job (submitO i) with
  | none => markBatch rows b "Error: Batch submission failed" m
  | some _ =>
    match jobO i with
    | some snap => applyResults rows snap.results m
    | none => markBatch rows b "Error: Job failed" m

/-- The batch loop: submit each batch in turn; a failed batch is marked and
the loop continues with the next batch.  The second component records the
indices of the batches whose submission was attempted. -/
def runBatches (rows : List (Option String)) (submitO : Nat → SubmitResp)
    (jobO : Nat → Option Snapshot) :
    List (List String) → Nat → List RowCols → List RowCols × List Nat
  | [], _, m => (m, [])
  | b :: bs, i, m =>
    let rest := runBatches rows submitO jobO bs (i + 1)
      (batchStep rows submitO jobO i b m)
    (rest.1, i :: rest.2)

/-- `enrich_with_clado` on the no-pre-existing-checkpoint path (the
intermediate `"3_batch_n"` checkpoint saves do not affect row statuses and
are modelled by the store section): initialize the columns, mark rows
without a LinkedIn URL, return early when no valid URL exists, else run the
batch loop over the split batches.  `submitO i` is the HTTP response to the
i-th batch submission (the source numbers batches from 1, the model from 0)
and `jobO i` is what `wait_for_job_completion` returned for that batch. -/
def enrich_with_clado (rows : List (Option String))
    (submitO : Nat → SubmitResp) (jobO : Nat → Option Snapshot) :
    List RowCols × List Nat :=
  let m := initRows rows
  if (validUrls rows).isEmpty then (m, [])
  else runBatches rows submitO jobO (chunkBatches (validUrls rows)) 0 m

/-- The enrichment status of row `i`. -/
def statusAt (m : List RowCols) (i : Nat) : Option String :=
  (m.get? i).map (fun r => r.status)

theorem urlIndexFrom_map_fst (rows : List (Option String)) :
    ∀ i, (urlIndexFrom i rows).map Prod.fst = validUrls rows := by
  induction rows with
  | nil => intro i; rfl
  | cons o rest ih =>
    intro i
    simp only [urlIndexFrom, validUrls, List.filterMap_cons]
    cases ho : truthyUrl o with
    | none => exact ih (i + 1)
    | some u => simp only [List.map_cons, ih (i + 1)]; rfl

theorem mem_urlIndexFrom (u : String) (j : Nat) (rows : List (Option String)) :
    ∀ i, (u, j) ∈ urlIndexFrom i rows ↔
      (i ≤ j ∧ ∃ o, rows.get? (j - i) = some o ∧ truthyUrl o = some u) := by
  induction rows with
  | nil =>
    intro i
    simp [urlIndexFrom]
  | cons o rest ih =>
    intro i
    cases ho : truthyUrl o with
    | none =>
      rw [urlIndexFrom, ho, ih (i + 1)]
      constructor
      · rintro ⟨hij, o', hget, htr⟩
        refine ⟨by omega, o', ?_, htr⟩
        have : j - i = (j - (i + 1)) + 1 := by omega
        rw [this]
        exact hget
      · rintro ⟨hij, o', hget, htr⟩
        rcases Nat.eq_or_lt_of_le hij with rfl | hlt
        · rw [Nat.sub_self] at hget
          simp only [List.get?_cons_zero, Option.some.injEq] at hget
          rw [← hget] at htr
          rw [htr] at ho
          exact absurd ho (by simp)
        · refine ⟨by omega, o', ?_, htr⟩
          have : j - i = (j - (i + 1)) + 1 := by omega
          rw [this] at hget
          exact hget
    | some u₀ =>
      rw [urlIndexFrom, ho]
      simp only [List.mem_cons, ih (i + 1)]
      constructor
      · rintro (heq | ⟨hij, o', hget, htr⟩)
        · have hu : u = u₀ := ((Prod.mk.injEq _ _ _ _).mp heq).1
          have hj : j = i := ((Prod.mk.injEq _ _ _ _).mp heq).2
          subst hj
          refine ⟨le_refl _, o, by simp, ?_⟩
          rw [ho, hu]
        · refine ⟨by omega, o', ?_, htr⟩
          have harith : j - i = (j - (i + 1)) + 1 := by omega
          rw [harith]
          exact hget
      · rintro ⟨hij, o', hget, htr⟩
        rcases Nat.eq_or_lt_of_le hij with rfl | hlt
        · left
          rw [Nat.sub_self] at hget
          simp only [List.get?_cons_zero, Option.some.injEq] at hget
          rw [← hget] at htr
          rw [htr] at ho
          have hu : u = u₀ := by injection ho
          rw [hu]
        · right
          refine ⟨by omega, o', ?_, htr⟩
          have harith : j - i = (j - (i + 1)) + 1 := by omega
          rw [harith] at hget
          exact hget

theorem mem_urlIndex (u : String) (j : Nat) (rows : List (Option String)) :
    (u, j) ∈ urlIndex rows ↔
      ∃ o, rows.get? j = some o ∧ truthyUrl o = some u := by
  rw [urlIndex, mem_urlIndexFrom]
  simp

theorem lookupUrl_sound {rows : List (Option String)} {u : String} {j : Nat}
    (h : lookupUrl rows u = some j) :
    ∃ o, rows.get? j = some o ∧ truthyUrl o = some u := by
  simp only [lookupUrl] at h
  obtain ⟨e, hfind, he2⟩ := Option.map_eq_some'.mp h
  have hmem : e ∈ (urlIndex rows).reverse := List.mem_of_find?_eq_some hfind
  have hpred : e.1 = u := by
    have := List.find?_some hfind
    simpa using this
  rw [List.mem_reverse] at hmem
  have : (u, j) ∈ urlIndex rows := by
    have he : e = (u, j) := by
      rw [Prod.ext_iff]
      exact ⟨hpred, he2⟩
    rw [← he]
    exact hmem
  exact (mem_urlIndex u j rows).mp this

/-- With no duplicate valid URL, the url-to-index table is injective in the
row index. -/
theorem urlIndex_inj {rows : List (Option String)}
    (hnd : (validUrls rows).Nodup) {u : String} {j j' : Nat}
    (h1 : (u, j) ∈ urlIndex rows) (h2 : (u, j') ∈ urlIndex rows) :
    j = j' := by
  by_contra hne
  have hmap : ((urlIndex rows).map Prod.fst).Nodup := by
    rw [urlIndex, urlIndexFrom_map_fst rows 0]
    exact hnd
  have hpw : (urlIndex rows).Pairwise (fun a b => a.1 ≠ b.1) := by
    simpa [List.Nodup, List.pairwise_map] using hmap
  have hsym : Symmetric (fun (a b : String × Nat) => a.1 ≠ b.1) := by
    intro a b hab heq
    exact hab heq.symm
  have hAll := hpw.forall hsym
  have hneq : ((u, j) : String × Nat) ≠ (u, j') := by
    simp [hne]
  exact hAll h1 h2 hneq rfl

/-- With no duplicate valid URL, a row's url looks up to that row. -/
theorem lookupUrl_complete {rows : List (Option String)}
    (hnd : (validUrls rows).Nodup) {u : String} {j : Nat}
    (h : (u, j) ∈ urlIndex rows) : lookupUrl rows u = some j := by
  have hmemrev : (u, j) ∈ (urlIndex rows).reverse := List.mem_reverse.mpr h
  have hfind : ((urlIndex rows).reverse.find?
      (fun e => decide (e.1 = u))).isSome := by
    rw [List.find?_isSome]
    exact ⟨(u, j), hmemrev, by simp⟩
  obtain ⟨e, hfe⟩ := Option.isSome_iff_exists.mp hfind
  have hepred : e.1 = u := by
    simpa using List.find?_some hfe
  have hemem : e ∈ urlIndex rows :=
    List.mem_reverse.mp (List.mem_of_find?_eq_some hfe)
  have hemem' : (u, e.2) ∈ urlIndex rows := by
    have he : e = (u, e.2) := Prod.ext_iff.mpr ⟨hepred, rfl⟩
    rw [← he]
    exact hemem
  have hj : e.2 = j := urlIndex_inj hnd hemem' h
  rw [lookupUrl, hfe]
  simp [hj]

theorem lookupUrl_unique {rows : List (Option String)} {u u' : String}
    {j : Nat} (h : lookupUrl rows u = some j)
    (h' : lookupUrl rows u' = some j) : u = u' := by
  obtain ⟨o, hget, htr⟩ := lookupUrl_sound h
  obtain ⟨o', hget', htr'⟩ := lookupUrl_sound h'
  rw [hget] at hget'
  have ho : o = o' := by injection hget'
  rw [← ho] at htr'
  rw [htr] at htr'
  injection htr'

/-! ### Row-update lemmas -/

theorem length_setRow (m : List RowCols) (i : Nat) (f : RowCols → RowCols) :
    (setRow m i f).length = m.length := by
  rw [setRow]
  cases m.get? i
  · rfl
  · simp

theorem statusAt_setRow_self {m : List RowCols} {i : Nat} {r : RowCols}
    (h : m.get? i = some r) (f : RowCols → RowCols) :
    statusAt (setRow m i f) i = some (f r).status := by
  rw [setRow, h, statusAt]
  have hlt : i < m.length := (List.get?_eq_some.mp h).1
  rw [List.get?_eq_getElem?, List.getElem?_set_eq_of_lt (f r) hlt]
  rfl

theorem statusAt_setRow_other {m : List RowCols} {i j : Nat} (h : i ≠ j)
    (f : RowCols → RowCols) :
    statusAt (setRow m i f) j = statusAt m j := by
  rw [setRow]
  cases hm : m.get? i
  · rfl
  · rw [statusAt, statusAt, List.get?_eq_getElem?, List.get?_eq_getElem?,
      List.getElem?_set_ne h]

theorem markBatch_cons (rows : List (Option String)) (u : String)
    (b : List String) (s : String) (m : List RowCols) :
    markBatch rows (u :: b) s m =
      markBatch rows b s (match lookupUrl rows u with
        | some i => setRow m i (fun r => { r with status := s })
        | none => m) := rfl

theorem length_markBatch (rows : List (Option String)) (b : List String)
    (s : String) : ∀ m, (markBatch rows b s m).length = m.length := by
  induction b with
  | nil => intro m; rfl
  | cons u b ih =>
    intro m
    rw [markBatch_cons]
    cases lookupUrl rows u
    · exact ih m
    · rw [ih, length_setRow]

theorem statusAt_markBatch_untouched {rows : List (Option String)}
    {b : List String} {s : String} {j : Nat}
    (h : ∀ u ∈ b, lookupUrl rows u ≠ some j) :
    ∀ m, statusAt (markBatch rows b s m) j = statusAt m j := by
  induction b with
  | nil => intro m; rfl
  | cons u b ih =>
    intro m
    rw [markBatch_cons]
    have htail := ih (fun u' hu' => h u' (List.mem_cons_of_mem _ hu'))
    cases hl : lookupUrl rows u with
    | none => exact htail m
    | some i =>
      have hij : i ≠ j := by
        intro he
        exact h u (List.mem_cons_self _ _) (by rw [hl, he])
      rw [htail, statusAt_setRow_other hij]

theorem statusAt_markBatch_keep {rows : List (Option String)}
    {b : List String} {s : String} {j : Nat} :
    ∀ m, statusAt m j = some s → statusAt (markBatch rows b s m) j = some s := by
  induction b with
  | nil => intro m h; exact h
  | cons u b ih =>
    intro m h
    rw [markBatch_cons]
    cases hl : lookupUrl rows u with
    | none => exact ih m h
    | some i =>
      by_cases hij : i = j
      · subst hij
        obtain ⟨r, hr⟩ : ∃ r, m.get? i = some r := by
          cases hm : m.get? i
          · rw [statusAt, hm] at h
            simp at h
          · exact ⟨_, rfl⟩
        exact ih _ (statusAt_setRow_self hr _)
      · refine ih _ ?_
        rw [statusAt_setRow_other hij]
        exact h

theorem statusAt_markBatch_hit {rows : List (Option String)}
    {b : List String} {s : String} {j : Nat} :
    ∀ m, (∃ u ∈ b, lookupUrl rows u = some j) → j < m.length →
      statusAt (markBatch rows b s m) j = some s := by
  induction b with
  | nil =>
    intro m h _
    simp at h
  | cons u b ih =>
    intro m h hj
    rcases h with ⟨u', hu', hl'⟩
    rcases List.mem_cons.mp hu' with rfl | hmem
    · rw [markBatch_cons, hl']
      have hr : m.get? j = some (m.get ⟨j, hj⟩) := List.get?_eq_get hj
      exact statusAt_markBatch_keep _ (statusAt_setRow_self hr _)
    · rw [markBatch_cons]
      cases hl : lookupUrl rows u with
      | none => exact ih m ⟨u', hmem, hl'⟩ hj
      | some i =>
        refine ih _ ⟨u', hmem, hl'⟩ ?_
        rw [length_setRow]
        exact hj

/-- A disjunction form: marking either leaves a row alone or writes the mark. -/
theorem statusAt_markBatch_cases (rows : List (Option String))
    (b : List String) (s : String) (j : Nat) :
    ∀ m, statusAt (markBatch rows b s m) j = statusAt m j ∨
      statusAt (markBatch rows b s m) j = some s := by
  induction b with
  | nil => intro m; left; rfl
  | cons u b ih =>
    intro m
    rw [markBatch_cons]
    cases hl : lookupUrl rows u with
    | none => exact ih m
    | some i =>
      by_cases hij : i = j
      · subst hij
        cases hm : m.get? i with
        | none =>
          have hsame : setRow m i (fun r => { r with status := s }) = m := by
            rw [setRow, hm]
          simpa only [hsame] using ih m
        | some r =>
          right
          exact statusAt_markBatch_keep _ (statusAt_setRow_self hm _)
      · rcases ih (setRow m i (fun r => { r with status := s })) with hc | hc
        · left
          rw [hc, statusAt_setRow_other hij]
        · right
          exact hc

/-! ### Result-merge lemmas -/

theorem applyResults_cons (rows : List (Option String)) (r : ResultEntry)
    (results : List ResultEntry) (m : List RowCols) :
    applyResults rows (r :: results) m =
      applyResults rows results (applyOneResult rows r m) := rfl

theorem applyOneResult_no_url {rows : List (Option String)} {r : ResultEntry}
    (h : truthyUrl r.linkedin_url = none) (m : List RowCols) :
    applyOneResult rows r m = m := by
  rw [applyOneResult, h]

theorem applyOneResult_no_index {rows : List (Option String)}
    {r : ResultEntry} {u : String} (ht : truthyUrl r.linkedin_url = some u)
    (hl : lookupUrl rows u = none) (m : List RowCols) :
    applyOneResult rows r m = m := by
  rw [applyOneResult, ht]
  show (match lookupUrl rows u with
    | some i => setRow m i (fun row => applyParsed row (parse_bulk_result r))
    | none => m) = m
  rw [hl]

theorem applyOneResult_set {rows : List (Option String)} {r : ResultEntry}
    {u : String} {i : Nat} (ht : truthyUrl r.linkedin_url = some u)
    (hl : lookupUrl rows u = some i) (m : List RowCols) :
    applyOneResult rows r m =
      setRow m i (fun row => applyParsed row (parse_bulk_result r)) := by
  rw [applyOneResult, ht]
  show (match lookupUrl rows u with
    | some i => setRow m i (fun row => applyParsed row (parse_bulk_result r))
    | none => m) = _
  rw [hl]

theorem length_applyOneResult (rows : List (Option String)) (r : ResultEntry)
    (m : List RowCols) : (applyOneResult rows r m).length = m.length := by
  cases ht : truthyUrl r.linkedin_url with
  | none => rw [applyOneResult_no_url ht]
  | some u =>
    cases hl : lookupUrl rows u with
    | none => rw [applyOneResult_no_index ht hl]
    | some i => rw [applyOneResult_set ht hl, length_setRow]

theorem length_applyResults (rows : List (Option String))
    (results : List ResultEntry) :
    ∀ m, (applyResults rows results m).length = m.length := by
  induction results with
  | nil => intro m; rfl
  | cons r results ih =>
    intro m
    rw [applyResults_cons, ih, length_applyOneResult]

theorem statusAt_applyResults_untouched {rows : List (Option String)}
    {results : List ResultEntry} {j : Nat}
    (h : ∀ r ∈ results, ∀ u, truthyUrl r.linkedin_url = some u →
      lookupUrl rows u ≠ some j) :
    ∀ m, statusAt (applyResults rows results m) j = statusAt m j := by
  induction results with
  | nil => intro m; rfl
  | cons r results ih =>
    intro m
    rw [applyResults_cons]
    have htail := ih (fun r' hr' => h r' (List.mem_cons_of_mem _ hr'))
    cases ht : truthyUrl r.linkedin_url with
    | none => rw [applyOneResult_no_url ht, htail]
    | some u =>
      cases hl : lookupUrl rows u with
      | none => rw [applyOneResult_no_index ht hl, htail]
      | some i =>
        have hij : i ≠ j := by
          intro he
          exact h r (List.mem_cons_self _ _) u ht (by rw [hl, he])
        rw [applyOneResult_set ht hl, htail, statusAt_setRow_other hij]

/-- Every status the parser can produce is nonempty. -/
theorem parse_status_ne_empty (r : ResultEntry) :
    (parse_bulk_result r).status ≠ "" := by
  rw [parse_bulk_result]
  by_cases hs : r.success
  · simp only [hs, Bool.not_true, Bool.false_eq_true, if_false]
    by_cases hc : r.contacts.isEmpty
    · simp [hc]
    · simp [hc]
  · have hs' : r.success = false := by
      cases h : r.success
      · rfl
      · exact absurd h hs
    simp only [hs', Bool.not_false, if_true]
    intro hcontra
    have hlen := congrArg String.length hcontra
    rw [String.length_append] at hlen
    have h7 : ("Error: " : String).length = 7 := rfl
    rw [h7] at hlen
    simp at hlen

theorem statusAt_applyResults_keep {rows : List (Option String)}
    {results : List ResultEntry} {j : Nat} :
    ∀ m s, statusAt m j = some s → s ≠ "" →
      ∃ s', statusAt (applyResults rows results m) j = some s' ∧ s' ≠ "" := by
  induction results with
  | nil =>
    intro m s hs hne
    exact ⟨s, hs, hne⟩
  | cons r results ih =>
    intro m s hs hne
    rw [applyResults_cons]
    cases ht : truthyUrl r.linkedin_url with
    | none =>
      rw [applyOneResult_no_url ht]
      exact ih m s hs hne
    | some u =>
      cases hl : lookupUrl rows u with
      | none =>
        rw [applyOneResult_no_index ht hl]
        exact ih m s hs hne
      | some i =>
        rw [applyOneResult_set ht hl]
        by_cases hij : i = j
        · subst hij
          obtain ⟨rr, hrr⟩ : ∃ rr, m.get? i = some rr := by
            cases hm : m.get? i
            · rw [statusAt, hm] at hs
              simp at hs
            · exact ⟨_, rfl⟩
          exact ih _ _ (statusAt_setRow_self hrr _) (parse_status_ne_empty r)
        · refine ih _ s ?_ hne
          rw [statusAt_setRow_other hij]
          exact hs

theorem statusAt_applyResults_hit {rows : List (Option String)}
    {results : List ResultEntry} {j : Nat} :
    ∀ m, (∃ r ∈ results, ∃ u, truthyUrl r.linkedin_url = some u ∧
        lookupUrl rows u = some j) → j < m.length →
      ∃ s', statusAt (applyResults rows results m) j = some s' ∧ s' ≠ "" := by
  induction results with
  | nil =>
    intro m h _
    simp at h
  | cons r results ih =>
    intro m h hj
    rcases h with ⟨r', hr', u, htr, hl⟩
    rcases List.mem_cons.mp hr' with rfl | hmem
    · rw [applyResults_cons, applyOneResult_set htr hl]
      have hr : m.get? j = some (m.get ⟨j, hj⟩) := List.get?_eq_get hj
      exact statusAt_applyResults_keep _ _ (statusAt_setRow_self hr _)
        (parse_status_ne_empty r')
    · rw [applyResults_cons]
      refine ih _ ⟨r', hmem, u, htr, hl⟩ ?_
      rw [length_applyOneResult]
      exact hj

/-- A disjunction form: merging results either leaves a row alone or writes
a nonempty parsed status. -/
theorem statusAt_applyResults_cases (rows : List (Option String))
    (results : List ResultEntry) (j : Nat) :
    ∀ m, statusAt (applyResults rows results m) j = statusAt m j ∨
      ∃ s', statusAt (applyResults rows results m) j = some s' ∧ s' ≠ "" := by
  induction results with
  | nil => intro m; left; rfl
  | cons r results ih =>
    intro m
    rw [applyResults_cons]
    cases ht : truthyUrl r.linkedin_url with
    | none =>
      rw [applyOneResult_no_url ht]
      exact ih m
    | some u =>
      cases hl : lookupUrl rows u with
      | none =>
        rw [applyOneResult_no_index ht hl]
        exact ih m
      | some i =>
        rw [applyOneResult_set ht hl]
        by_cases hij : i = j
        · subst hij
          cases hm : m.get? i with
          | none =>
            have hsame : setRow m i
                (fun row => applyParsed row (parse_bulk_result r)) = m := by
              rw [setRow, hm]
            rw [hsame]
            exact ih m
          | some rr =>
            right
            exact statusAt_applyResults_keep _ _ (statusAt_setRow_self hm _)
              (parse_status_ne_empty r)
        · rcases ih (setRow m i
              (fun row => applyParsed row (parse_bulk_result r))) with hc | hc
          · left
            rw [hc, statusAt_setRow_other hij]
          · right
            exact hc

/-! ### Batch-loop lemmas -/

/-- What a failed batch is marked with, as a function of the submit and job
outcomes for batch index `a`: `'Error: Batch submission failed'` when the
submission yielded no job id, `'Error: Job failed'` when the job wait came
back empty, nothing when the job produced a snapshot. -/
def failureMark (submitO : Nat → SubmitResp) (jobO : Nat → Option Snapshot)
    (a : Nat) : Option String :=
  match submit_bulk_job (submitO a) with
  | none => some "Error: Batch submission failed"
  | some _ =>
    match jobO a with
    | none => some "Error: Job failed"
    | some _ => none

theorem failureMark_ne_empty {submitO : Nat → SubmitResp}
    {jobO : Nat → Option Snapshot} {a : Nat} {s : String}
    (h : failureMark submitO jobO a = some s) : s ≠ "" := by
  cases hsub : submit_bulk_job (submitO a) with
  | none =>
    simp only [failureMark, hsub, Option.some.injEq] at h
    rw [← h]
    decide
  | some jid =>
    cases hjob : jobO a with
    | none =>
      simp only [failureMark, hsub, hjob, Option.some.injEq] at h
      rw [← h]
      decide
    | some snap =>
      simp [failureMark, hsub, hjob] at h

theorem batchStep_of_failureMark {rows : List (Option String)}
    {submitO : Nat → SubmitResp} {jobO : Nat → Option Snapshot} {a : Nat}
    {s : String} (h : failureMark submitO jobO a = some s)
    (b : List String) (m : List RowCols) :
    batchStep rows submitO jobO a b m = markBatch rows b s m := by
  cases hsub : submit_bulk_job (submitO a) with
  | none =>
    simp only [failureMark, hsub, Option.some.injEq] at h
    rw [← h, batchStep, hsub]
  | some jid =>
    cases hjob : jobO a with
    | none =>
      simp only [failureMark, hsub, hjob, Option.some.injEq] at h
      rw [← h, batchStep, hsub]
      show (match jobO a with
        | some snap => applyResults rows snap.results m
        | none => markBatch rows b "Error: Job failed" m) = _
      rw [hjob]
    | some snap =>
      simp [failureMark, hsub, hjob] at h

theorem batchStep_of_snapshot {rows : List (Option String)}
    {submitO : Nat → SubmitResp} {jobO : Nat → Option Snapshot} {a : Nat}
    {jid : String} {snap : Snapshot}
    (hs : submit_bulk_job (submitO a) = some jid) (hj : jobO a = some snap)
    (b : List String) (m : List RowCols) :
    batchStep rows submitO jobO a b m = applyResults rows snap.results m := by
  rw [batchStep, hs]
  show (match jobO a with
    | some snap => applyResults rows snap.results m
    | none => markBatch rows b "Error: Job failed" m) = _
  rw [hj]

theorem length_batchStep (rows : List (Option String))
    (submitO : Nat → SubmitResp) (jobO : Nat → Option Snapshot) (a : Nat)
    (b : List String) (m : List RowCols) :
    (batchStep rows submitO jobO a b m).length = m.length := by
  rw [batchStep]
  cases submit_bulk_job (submitO a) with
  | none => rw [length_markBatch]
  | some jid =>
    cases jobO a with
    | none => rw [length_markBatch]
    | some snap => rw [length_applyResults]

theorem runBatches_fst (rows : List (Option String))
    (submitO : Nat → SubmitResp) (jobO : Nat → Option Snapshot)
    (b : List String) (bs : List (List String)) (i : Nat) (m : List RowCols) :
    (runBatches rows submitO jobO (b :: bs) i m).1 =
      (runBatches rows submitO jobO bs (i + 1)
        (batchStep rows submitO jobO i b m)).1 := rfl

/-- Every batch is submitted: the loop records exactly the indices
`i, i+1, ...`, one per batch, regardless of earlier failures. -/
theorem runBatches_trace (rows : List (Option String))
    (submitO : Nat → SubmitResp) (jobO : Nat → Option Snapshot) :
    ∀ (bs : List (List String)) (i : Nat) (m : List RowCols),
      (runBatches rows submitO jobO bs i m).2 = List.range' i bs.length := by
  intro bs
  induction bs with
  | nil => intro i m; rfl
  | cons b bs ih =>
    intro i m
    show i :: (runBatches rows submitO jobO bs (i + 1) _).2 = _
    rw [ih]
    rfl

theorem length_runBatches (rows : List (Option String))
    (submitO : Nat → SubmitResp) (jobO : Nat → Option Snapshot) :
    ∀ (bs : List (List String)) (i : Nat) (m : List RowCols),
      (runBatches rows submitO jobO bs i m).1.length = m.length := by
  intro bs
  induction bs with
  | nil => intro i m; rfl
  | cons b bs ih =>
    intro i m
    rw [runBatches_fst, ih, length_batchStep]

/-- Batch `a` (with identifiers `b`) never writes row `j`. -/
def batchUntouched (rows : List (Option String))
    (jobO : Nat → Option Snapshot) (j a : Nat) (b : List String) : Prop :=
  (∀ u ∈ b, lookupUrl rows u ≠ some j) ∧
  (∀ snap, jobO a = some snap → ∀ r ∈ snap.results, ∀ u,
    truthyUrl r.linkedin_url = some u → lookupUrl rows u ≠ some j)

theorem statusAt_batchStep_untouched {rows : List (Option String)}
    {submitO : Nat → SubmitResp} {jobO : Nat → Option Snapshot} {j a : Nat}
    {b : List String} (h : batchUntouched rows jobO j a b) (m : List RowCols) :
    statusAt (batchStep rows submitO jobO a b m) j = statusAt m j := by
  rw [batchStep]
  cases submit_bulk_job (submitO a) with
  | none => exact statusAt_markBatch_untouched h.1 m
  | some jid =>
    cases hj : jobO a with
    | none => exact statusAt_markBatch_untouched h.1 m
    | some snap => exact statusAt_applyResults_untouched (h.2 snap hj) m

theorem statusAt_runBatches_untouched {rows : List (Option String)}
    {submitO : Nat → SubmitResp} {jobO : Nat → Option Snapshot} {j : Nat} :
    ∀ (bs : List (List String)) (i : Nat) (m : List RowCols),
      (∀ k, k < bs.length → batchUntouched rows jobO j (i + k) (bs.getD k [])) →
      statusAt (runBatches rows submitO jobO bs i m).1 j = statusAt m j := by
  intro bs
  induction bs with
  | nil => intro i m _; rfl
  | cons b bs ih =>
    intro i m h
    rw [runBatches_fst]
    have hhead : batchUntouched rows jobO j i b := by
      have h0 := h 0 (by simp)
      rw [Nat.add_zero] at h0
      exact h0
    have htail : ∀ k, k < bs.length →
        batchUntouched rows jobO j (i + 1 + k) (bs.getD k []) := by
      intro k hk
      have hk1 := h (k + 1) (by simp; omega)
      have harith : i + (k + 1) = i + 1 + k := by omega
      rw [harith] at hk1
      exact hk1
    rw [ih (i + 1) _ htail, statusAt_batchStep_untouched hhead]

/-- A disjunction form for one batch step. -/
theorem statusAt_batchStep_cases (rows : List (Option String))
    (submitO : Nat → SubmitResp) (jobO : Nat → Option Snapshot) (j a : Nat)
    (b : List String) (m : List RowCols) :
    statusAt (batchStep rows submitO jobO a b m) j = statusAt m j ∨
      ∃ s', statusAt (batchStep rows submitO jobO a b m) j = some s' ∧
        s' ≠ "" := by
  rw [batchStep]
  cases submit_bulk_job (submitO a) with
  | none =>
    rcases statusAt_markBatch_cases rows b "Error: Batch submission failed" j m
      with hc | hc
    · left; exact hc
    · right; exact ⟨_, hc, by decide⟩
  | some jid =>
    cases hj : jobO a with
    | none =>
      rcases statusAt_markBatch_cases rows b "Error: Job failed" j m
        with hc | hc
      · left; exact hc
      · right; exact ⟨_, hc, by decide⟩
    | some snap => exact statusAt_applyResults_cases rows snap.results j m

theorem statusAt_runBatches_keepne {rows : List (Option String)}
    {submitO : Nat → SubmitResp} {jobO : Nat → Option Snapshot} {j : Nat} :
    ∀ (bs : List (List String)) (i : Nat) (m : List RowCols) (s : String),
      statusAt m j = some s → s ≠ "" →
      ∃ s', statusAt (runBatches rows submitO jobO bs i m).1 j = some s' ∧
        s' ≠ "" := by
  intro bs
  induction bs with
  | nil =>
    intro i m s hs hne
    exact ⟨s, hs, hne⟩
  | cons b bs ih =>
    intro i m s hs hne
    rw [runBatches_fst]
    rcases statusAt_batchStep_cases rows submitO jobO j i b m with hc | ⟨s', hc, hne'⟩
    · exact ih (i + 1) _ s (by rw [hc]; exact hs) hne
    · exact ih (i + 1) _ s' hc hne'

/-- Batch `a` (with identifiers `b`) writes row `j` in this run. -/
def batchTouches (rows : List (Option String)) (submitO : Nat → SubmitResp)
    (jobO : Nat → Option Snapshot) (j a : Nat) (b : List String) : Prop :=
  (failureMark submitO jobO a ≠ none ∧ ∃ u ∈ b, lookupUrl rows u = some j)
  ∨ (∃ jid, submit_bulk_job (submitO a) = some jid) ∧
    (∃ snap, jobO a = some snap ∧ ∃ r ∈ snap.results, ∃ u,
      truthyUrl r.linkedin_url = some u ∧ lookupUrl rows u = some j)

theorem statusAt_batchStep_touch {rows : List (Option String)}
    {submitO : Nat → SubmitResp} {jobO : Nat → Option Snapshot} {j a : Nat}
    {b : List String} {m : List RowCols}
    (h : batchTouches rows submitO jobO j a b) (hj : j < m.length) :
    ∃ s', statusAt (batchStep rows submitO jobO a b m) j = some s' ∧
      s' ≠ "" := by
  rcases h with ⟨hfm, hmem⟩ | ⟨⟨jid, hsub⟩, snap, hjob, hhit⟩
  · obtain ⟨s, hs⟩ := Option.ne_none_iff_exists'.mp hfm
    rw [batchStep_of_failureMark hs]
    exact ⟨s, statusAt_markBatch_hit m hmem hj, failureMark_ne_empty hs⟩
  · rw [batchStep_of_snapshot hsub hjob]
    exact statusAt_applyResults_hit m hhit hj

theorem statusAt_runBatches_touch {rows : List (Option String)}
    {submitO : Nat → SubmitResp} {jobO : Nat → Option Snapshot} {j : Nat} :
    ∀ (bs : List (List String)) (i : Nat) (m : List RowCols) (k : Nat),
      k < bs.length →
      batchTouches rows submitO jobO j (i + k) (bs.getD k []) →
      j < m.length →
      ∃ s', statusAt (runBatches rows submitO jobO bs i m).1 j = some s' ∧
        s' ≠ "" := by
  intro bs
  induction bs with
  | nil =>
    intro i m k hk
    simp at hk
  | cons b bs ih =>
    intro i m k hk htouch hj
    rw [runBatches_fst]
    cases k with
    | zero =>
      rw [Nat.add_zero] at htouch
      obtain ⟨s', hs', hne'⟩ := statusAt_batchStep_touch htouch hj
      exact statusAt_runBatches_keepne bs (i + 1) _ s' hs' hne'
    | succ k' =>
      refine ih (i + 1) _ k' (by simpa using hk) ?_ ?_
      · have harith : i + 1 + k' = i + (k' + 1) := by omega
        rw [harith]
        exact htouch
      · rw [length_batchStep]
        exact hj

/-- The exact-status master lemma: if the target row's url sits in batch
`k`, batch `k` fails with mark `s`, and no other batch writes the row, the
row ends with exactly status `s`. -/
theorem statusAt_runBatches_failure {rows : List (Option String)}
    {submitO : Nat → SubmitResp} {jobO : Nat → Option Snapshot} {j : Nat}
    {s : String} :
    ∀ (bs : List (List String)) (i : Nat) (m : List RowCols) (k : Nat),
      k < bs.length →
      (∃ u ∈ bs.getD k [], lookupUrl rows u = some j) →
      failureMark submitO jobO (i + k) = some s →
      (∀ k', k' < bs.length → k' ≠ k →
        batchUntouched rows jobO j (i + k') (bs.getD k' [])) →
      j < m.length →
      statusAt (runBatches rows submitO jobO bs i m).1 j = some s := by
  intro bs
  induction bs with
  | nil =>
    intro i m k hk
    simp at hk
  | cons b bs ih =>
    intro i m k hk hmem hf hunt hj
    rw [runBatches_fst]
    cases k with
    | zero =>
      rw [Nat.add_zero] at hf
      have hstep : statusAt (batchStep rows submitO jobO i b m) j = some s := by
        rw [batchStep_of_failureMark hf]
        exact statusAt_markBatch_hit m hmem hj
      have htail : ∀ k', k' < bs.length →
          batchUntouched rows jobO j (i + 1 + k') (bs.getD k' []) := by
        intro k' hk'
        have h1 := hunt (k' + 1) (by simp; omega) (by omega)
        have harith : i + (k' + 1) = i + 1 + k' := by omega
        rw [harith] at h1
        exact h1
      rw [statusAt_runBatches_untouched bs (i + 1) _ htail, hstep]
    | succ k' =>
      refine ih (i + 1) _ k' (by simpa using hk) hmem ?_ ?_ ?_
      · have harith : i + 1 + k' = i + (k' + 1) := by omega
        rw [harith]
        exact hf
      · intro k'' hk'' hne
        have h1 := hunt (k'' + 1) (by simp; omega) (by omega)
        have harith : i + (k'' + 1) = i + 1 + k'' := by omega
        rw [harith] at h1
        exact h1
      · rw [length_batchStep]
        exact hj

theorem length_initRows (rows : List (Option String)) :
    (initRows rows).length = rows.length := List.length_map _ _

theorem enrich_with_clado_run {rows : List (Option String)}
    {submitO : Nat → SubmitResp} {jobO : Nat → Option Snapshot}
    (h : (validUrls rows).isEmpty = false) :
    enrich_with_clado rows submitO jobO =
      runBatches rows submitO jobO (chunkBatches (validUrls rows)) 0
        (initRows rows) := by
  rw [enrich_with_clado, h]
  simp

/-- Two distinct batches of a duplicate-free identifier list share no
identifier. -/
theorem chunkBatches_disjoint {l : List String} (hnd : l.Nodup) {k k' : Nat}
    (hk : k < (chunkBatches l).length) (hk' : k' < (chunkBatches l).length)
    (hne : k' ≠ k) {u : String} (hu : u ∈ (chunkBatches l).getD k [])
    (hu' : u ∈ (chunkBatches l).getD k' []) : False := by
  have hfl : ((chunkBatches l).flatten).Nodup := by
    rw [chunkBatches_flatten]
    exact hnd
  have hpd := (List.nodup_flatten.mp hfl).2
  have hgetk : (chunkBatches l).getD k [] = (chunkBatches l)[k] := by
    rw [List.getD_eq_getElem?_getD, List.getElem?_eq_getElem hk]
    rfl
  have hgetk' : (chunkBatches l).getD k' [] = (chunkBatches l)[k'] := by
    rw [List.getD_eq_getElem?_getD, List.getElem?_eq_getElem hk']
    rfl
  rw [hgetk] at hu
  rw [hgetk'] at hu'
  rcases lt_or_gt_of_ne hne with hlt | hgt
  · exact (List.pairwise_iff_getElem.mp hpd k' k hk' hk hlt) hu' hu
  · exact (List.pairwise_iff_getElem.mp hpd k k' hk hk' hgt) hu hu'

/-- An identifier of a batch looks up to a unique row holding it. -/
theorem lookup_of_mem_chunk {rows : List (Option String)}
    (hnd : (validUrls rows).Nodup) {u : String} {k : Nat}
    (hk : k < (chunkBatches (validUrls rows)).length)
    (hu : u ∈ (chunkBatches (validUrls rows)).getD k []) :
    ∃ j o, lookupUrl rows u = some j ∧ rows.get? j = some o ∧
      truthyUrl o = some u ∧ j < rows.length := by
  have hgetk : (chunkBatches (validUrls rows)).getD k [] =
      (chunkBatches (validUrls rows))[k] := by
    rw [List.getD_eq_getElem?_getD, List.getElem?_eq_getElem hk]
    rfl
  rw [hgetk] at hu
  have hufl : u ∈ (chunkBatches (validUrls rows)).flatten :=
    List.mem_flatten.mpr ⟨_, List.getElem_mem hk, hu⟩
  rw [chunkBatches_flatten] at hufl
  obtain ⟨o, ho, htr⟩ := List.mem_filterMap.mp hufl
  obtain ⟨j, hget⟩ := List.mem_iff_get?.mp ho
  have hui : (u, j) ∈ urlIndex rows :=
    (mem_urlIndex u j rows).mpr ⟨o, hget, htr⟩
  exact ⟨j, o, lookupUrl_complete hnd hui, hget, htr,
    (List.get?_eq_some.mp hget).1⟩

/-- Under distinct valid URLs and results confined to their own batch, no
batch other than the one holding `u` ever writes `u`'s row. -/
theorem untouched_of_nodup {rows : List (Option String)}
    {jobO : Nat → Option Snapshot} {u : String} {j k : Nat}
    (hnd : (validUrls rows).Nodup)
    (hconf : ∀ a snap, jobO a = some snap → ∀ r ∈ snap.results, ∀ u',
      truthyUrl r.linkedin_url = some u' →
        u' ∈ (chunkBatches (validUrls rows)).getD a [])
    (hk : k < (chunkBatches (validUrls rows)).length)
    (hu : u ∈ (chunkBatches (validUrls rows)).getD k [])
    (hlook : lookupUrl rows u = some j) :
    ∀ k', k' < (chunkBatches (validUrls rows)).length → k' ≠ k →
      batchUntouched rows jobO j k'
        ((chunkBatches (validUrls rows)).getD k' []) := by
  intro k' hk' hne
  constructor
  · intro u' hu' hlook'
    have hequ : u' = u := lookupUrl_unique hlook' hlook
    rw [hequ] at hu'
    exact chunkBatches_disjoint hnd hk hk' hne hu hu'
  · intro snap hjob r hr u' htr hlook'
    have hmem := hconf k' snap hjob r hr u' htr
    have hequ : u' = u := lookupUrl_unique hlook' hlook
    rw [hequ] at hmem
    exact chunkBatches_disjoint hnd hk hk' hne hu hmem

/-- A batch index in range means the valid-URL list is nonempty. -/
theorem validUrls_not_empty_of_chunk {rows : List (Option String)} {k : Nat}
    (hk : k < (chunkBatches (validUrls rows)).length) :
    (validUrls rows).isEmpty = false := by
  cases hv : validUrls rows with
  | nil =>
    rw [hv] at hk
    rw [chunkBatches_nil] at hk
    simp at hk
  | cons a as => rfl

/-- A run either leaves a row's status alone or ends it nonempty. -/
theorem statusAt_runBatches_cases {rows : List (Option String)}
    {submitO : Nat → SubmitResp} {jobO : Nat → Option Snapshot} {j : Nat} :
    ∀ (bs : List (List String)) (i : Nat) (m : List RowCols),
      statusAt (runBatches rows submitO jobO bs i m).1 j = statusAt m j ∨
      ∃ s', statusAt (runBatches rows submitO jobO bs i m).1 j = some s' ∧
        s' ≠ "" := by
  intro bs
  induction bs with
  | nil => intro i m; left; rfl
  | cons b bs ih =>
    intro i m
    rw [runBatches_fst]
    rcases statusAt_batchStep_cases rows submitO jobO j i b m
      with hc | ⟨s', hc, hne'⟩
    · rcases ih (i + 1) (batchStep rows submitO jobO i b m) with hc' | hc'
      · left
        rw [hc', hc]
      · right
        exact hc'
    · right
      exact statusAt_runBatches_keepne bs (i + 1) _ s' hc hne'

/-- An empty final status can only come from a row whose LinkedIn cell is
truthy (valid rows start blank; invalid rows are marked immediately). -/
theorem initRows_status_empty {rows : List (Option String)} {i : Nat}
    (h : statusAt (initRows rows) i = some "") :
    ∃ o u, rows.get? i = some o ∧ truthyUrl o = some u := by
  rw [statusAt, initRows, List.get?_map] at h
  cases hget : rows.get? i with
  | none =>
    rw [hget] at h
    simp at h
  | some o =>
    rw [hget] at h
    cases ht : truthyUrl o with
    | none =>
      simp only [ht, Option.map_some'] at h
      have : ("No LinkedIn URL" : String) = "" := by
        injection h
      exact absurd this (by decide)
    | some u => exact ⟨o, u, rfl, ht⟩

theorem mem_chunk_index {l : List String} {u : String} (hu : u ∈ l) :
    ∃ k, k < (chunkBatches l).length ∧
      u ∈ (chunkBatches l).getD k [] := by
  obtain ⟨b, hb, hub⟩ := chunkBatches_mem_flatten hu
  obtain ⟨k, hk⟩ := List.mem_iff_get?.mp hb
  refine ⟨k, (List.get?_eq_some.mp hk).1, ?_⟩
  rw [List.getD_eq_getElem?_getD, ← List.get?_eq_getElem?, hk]
  exact hub

theorem validUrls_not_empty_of_mem {rows : List (Option String)} {u : String}
    (hu : u ∈ validUrls rows) : (validUrls rows).isEmpty = false := by
  cases hv : validUrls rows with
  | nil =>
    rw [hv] at hu
    simp at hu
  | cons a as => rfl

/-- The contact loop collects exactly the work emails, the non-work emails,
and the phones, in order. -/
theorem collectContacts_eq_filterMap (cs : List Contact) :
    collectContacts cs =
      (cs.filterMap (fun c =>
        if c.type = some "email" ∧ c.subType = some "work"
        then some c.value else none),
       cs.filterMap (fun c =>
        if c.type = some "email" ∧ c.subType ≠ some "work"
        then some c.value else none),
       cs.filterMap (fun c =>
        if c.type = some "phone" then some c.value else none)) := by
  induction cs with
  | nil => rfl
  | cons c cs ih =>
    simp only [collectContacts, ih, List.filterMap_cons]
    by_cases h1 : c.type = some "email"
    · by_cases h2 : c.subType = some "work"
      · simp [h1, h2]
      · simp [h1, h2]
    · by_cases h3 : c.type = some "phone"
      · simp [h1, h3]
      · simp [h1, h3]

/-- Claim C10: on a truthy success flag, `parse_bulk_result` puts each
email contact with subType `'work'` into the work-email field and every
other email contact (subType `'personal'`, missing, or anything else) into
the personal-email field, joining multiple values with `'; '`; on a falsy
success flag it produces only an error status — the email/phone keys are
absent, so merging the parsed dict into a row leaves the row's previously
set email and phone columns untouched. -/
theorem c10_parse_classification (r : ResultEntry) :
    (r.success = true →
      (parse_bulk_result r).workEmail = some (String.intercalate "; "
        (r.contacts.filterMap (fun c =>
          if c.type = some "email" ∧ c.subType = some "work"
          then some c.value else none)))
      ∧ (parse_bulk_result r).personalEmail = some (String.intercalate "; "
        (r.contacts.filterMap (fun c =>
          if c.type = some "email" ∧ c.subType ≠ some "work"
          then some c.value else none))))
    ∧ (r.success = false →
        (parse_bulk_result r).status =
          "Error: " ++ r.error.getD "Unknown error"
        ∧ (parse_bulk_result r).workEmail = none
        ∧ (parse_bulk_result r).personalEmail = none
        ∧ (parse_bulk_result r).phone = none
        ∧ ∀ row : RowCols,
            (applyParsed row (parse_bulk_result r)).workEmail = row.workEmail
            ∧ (applyParsed row (parse_bulk_result r)).personalEmail =
                row.personalEmail
            ∧ (applyParsed row (parse_bulk_result r)).phone = row.phone) := by
  constructor
  · intro hs
    constructor
    · simp [parse_bulk_result, hs, collectContacts_eq_filterMap]
    · simp [parse_bulk_result, hs, collectContacts_eq_filterMap]
  · intro hs
    refine ⟨?_, ?_, ?_, ?_, ?_⟩ <;>
      simp [parse_bulk_result, hs, applyParsed]

/-- Witness for the parse-classification claim: a successful result with a
work email and a subType-less email lands each in its field. -/
theorem c10_parse_classification_witness :
    (parse_bulk_result ⟨some "u", true, none,
      [⟨some "email", "ada@corp.example", some "work"⟩,
       ⟨some "email", "ada@mail.example", none⟩]⟩).workEmail =
        some "ada@corp.example"
    ∧ (parse_bulk_result ⟨some "u", true, none,
      [⟨some "email", "ada@corp.example", some "work"⟩,
       ⟨some "email", "ada@mail.example", none⟩]⟩).personalEmail =
        some "ada@mail.example" := by
  have h := (c10_parse_classification ⟨some "u", true, none,
    [⟨some "email", "ada@corp.example", some "work"⟩,
     ⟨some "email", "ada@mail.example", none⟩]⟩).1 rfl
  refine ⟨?_, ?_⟩
  · rw [h.1]
    rfl
  · rw [h.2]
    rfl

/-- 501 rows with distinct LinkedIn URLs: enough for two batches. -/
def fiveHundredOneRows : List (Option String) :=
  (List.range 501).map (fun n => some (toString n))

set_option maxRecDepth 40000 in
/-- Claim C3 as stated is false on the code: with 501 identifiers (two
batches) and an HTTP 401 authentication response to the first batch's
submission, the dataset's run does not stop — the second batch is still
submitted (the submission trace lists both batch indices). -/
theorem c3_auth_counterexample :
    (chunkBatches (validUrls fiveHundredOneRows)).length = 2
    ∧ (fun _ : Nat => SubmitResp.http 401 none) 0 = SubmitResp.http 401 none
    ∧ (enrich_with_clado fiveHundredOneRows
        (fun _ => SubmitResp.http 401 none) (fun _ => none)).2 = [0, 1] := by
  have hne : (validUrls fiveHundredOneRows).isEmpty = false := by decide
  have hlen : (chunkBatches (validUrls fiveHundredOneRows)).length = 2 := by
    decide
  refine ⟨hlen, rfl, ?_⟩
  rw [enrich_with_clado_run hne, runBatches_trace, hlen]
  rfl

/-- Claim C3, amended: an HTTP 401 (authentication failure) or 402 (quota
exhausted) response to a batch submission is fatal only for that batch —
its rows are marked `'Error: Batch submission failed'`, like any other
submission failure — and the loop continues: every batch of the dataset is
still submitted.  (Hypotheses: the valid URLs are distinct and job results
are confined to their own batch.) -/
theorem c3_auth_quota_amended (rows : List (Option String))
    (submitO : Nat → SubmitResp) (jobO : Nat → Option Snapshot)
    (k : Nat) (u : String)
    (hnd : (validUrls rows).Nodup)
    (hconf : ∀ a snap, jobO a = some snap → ∀ r ∈ snap.results, ∀ u',
      truthyUrl r.linkedin_url = some u' →
        u' ∈ (chunkBatches (validUrls rows)).getD a [])
    (hk : k < (chunkBatches (validUrls rows)).length)
    (hu : u ∈ (chunkBatches (validUrls rows)).getD k [])
    (hs : (∃ jid, submitO k = SubmitResp.http 401 jid) ∨
      (∃ jid, submitO k = SubmitResp.http 402 jid)) :
    (enrich_with_clado rows submitO jobO).2 =
      List.range' 0 (chunkBatches (validUrls rows)).length
    ∧ ∃ j, lookupUrl rows u = some j ∧
        statusAt (enrich_with_clado rows submitO jobO).1 j =
          some "Error: Batch submission failed" := by
  have hne := validUrls_not_empty_of_chunk hk
  have hrun := @enrich_with_clado_run rows submitO jobO hne
  constructor
  · rw [hrun, runBatches_trace]
  · obtain ⟨j, o, hlook, hget, htr, hjlt⟩ := lookup_of_mem_chunk hnd hk hu
    refine ⟨j, hlook, ?_⟩
    have hsubnone : submit_bulk_job (submitO k) = none := by
      rcases hs with ⟨jid, hjid⟩ | ⟨jid, hjid⟩ <;> rw [hjid] <;> rfl
    have hfail : failureMark submitO jobO k =
        some "Error: Batch submission failed" := by
      rw [failureMark, hsubnone]
    rw [hrun]
    refine statusAt_runBatches_failure _ 0 _ k hk ⟨u, hu, hlook⟩ ?_ ?_ ?_
    · rw [Nat.zero_add]
      exact hfail
    · intro k' hk' hne'
      have hut := untouched_of_nodup hnd hconf hk hu hlook k' hk' hne'
      rw [Nat.zero_add]
      exact hut
    · rw [length_initRows]
      exact hjlt

/-- Witness for the amended 401/402 claim: one batch of two distinct URLs,
401 on its submission — the trace still lists the batch and the row of
`"a"` is marked as a failed submission. -/
theorem c3_auth_quota_amended_witness :
    (enrich_with_clado [some "a", some "b"]
        (fun _ => SubmitResp.http 401 none) (fun _ => none)).2 =
      List.range' 0
        (chunkBatches (validUrls [some "a", some "b"])).length
    ∧ ∃ j, lookupUrl [some "a", some "b"] "a" = some j ∧
        statusAt (enrich_with_clado [some "a", some "b"]
          (fun _ => SubmitResp.http 401 none) (fun _ => none)).1 j =
            some "Error: Batch submission failed" :=
  c3_auth_quota_amended [some "a", some "b"]
    (fun _ => SubmitResp.http 401 none) (fun _ => none) 0 "a" (by decide)
    (fun a snap h => by simp at h) (by decide) (by decide)
    (Or.inl ⟨none, rfl⟩)

/-- Claim C4: the poll loop runs at a fixed `POLL_INTERVAL` cadence
(iteration `n` at elapsed `POLL_INTERVAL * n` seconds) and returns the
snapshot of the first terminal poll; when every poll within `MAX_POLL_TIME`
is non-terminal it reports a timeout and returns no snapshot, and a batch
whose job wait returned no snapshot has every one of its rows marked
`'Error: Job failed'`. -/
theorem c4_poll_timeout (polls : Nat → PollResp)
    (rows : List (Option String)) (submitO : Nat → SubmitResp)
    (jobO : Nat → Option Snapshot) (k : Nat) (u : String) :
    (∀ s, wait_for_job_completion polls = some s →
      terminalStatus s ∧ ∃ m, POLL_INTERVAL * m ≤ MAX_POLL_TIME ∧
        poll_job_status (polls m) = some s)
    ∧ ((∀ m, POLL_INTERVAL * m ≤ MAX_POLL_TIME →
        ∃ s, poll_job_status (polls m) = some s ∧ ¬ terminalStatus s) →
      wait_for_job_completion polls = none)
    ∧ ((validUrls rows).Nodup →
      (∀ a snap, jobO a = some snap → ∀ r ∈ snap.results, ∀ u',
        truthyUrl r.linkedin_url = some u' →
          u' ∈ (chunkBatches (validUrls rows)).getD a []) →
      k < (chunkBatches (validUrls rows)).length →
      u ∈ (chunkBatches (validUrls rows)).getD k [] →
      (∃ jid, submit_bulk_job (submitO k) = some jid) →
      jobO k = wait_for_job_completion polls →
      (∀ m, POLL_INTERVAL * m ≤ MAX_POLL_TIME →
        ∃ s, poll_job_status (polls m) = some s ∧ ¬ terminalStatus s) →
      ∃ j, lookupUrl rows u = some j ∧
        statusAt (enrich_with_clado rows submitO jobO).1 j =
          some "Error: Job failed") := by
  refine ⟨?_, ?_, ?_⟩
  · intro s h
    obtain ⟨h1, m, _, h2, h3⟩ := waitFrom_some_spec polls
      (MAX_POLL_TIME / POLL_INTERVAL + 1) 0 s (by simp) h
    exact ⟨h1, m, h2, h3⟩
  · intro hnt
    exact waitFrom_none_of_nonterminal polls hnt
      (MAX_POLL_TIME / POLL_INTERVAL + 1) 0 (by simp)
  · intro hnd hconf hk hu hsub hjw hnt
    have hne := validUrls_not_empty_of_chunk hk
    have hrun := @enrich_with_clado_run rows submitO jobO hne
    obtain ⟨j, o, hlook, hget, htr, hjlt⟩ := lookup_of_mem_chunk hnd hk hu
    refine ⟨j, hlook, ?_⟩
    have hjobnone : jobO k = none := by
      rw [hjw]
      exact waitFrom_none_of_nonterminal polls hnt
        (MAX_POLL_TIME / POLL_INTERVAL + 1) 0 (by simp)
    have hfail : failureMark submitO jobO k = some "Error: Job failed" := by
      obtain ⟨jid, hjid⟩ := hsub
      rw [failureMark, hjid]
      show (match jobO k with
        | none => some "Error: Job failed"
        | some _ => none) = _
      rw [hjobnone]
    rw [hrun]
    refine statusAt_runBatches_failure _ 0 _ k hk ⟨u, hu, hlook⟩ ?_ ?_ ?_
    · rw [Nat.zero_add]
      exact hfail
    · intro k' hk' hne'
      have hut := untouched_of_nodup hnd hconf hk hu hlook k' hk' hne'
      rw [Nat.zero_add]
      exact hut
    · rw [length_initRows]
      exact hjlt

/-- Witness for the poll-timeout claim: a stream of forever-`processing`
polls times out with no snapshot, and the waiting batch's single row ends
marked `'Error: Job failed'`. -/
theorem c4_poll_timeout_witness :
    wait_for_job_completion
        (fun _ => PollResp.http 200 ⟨"processing", 0, 0, 0, []⟩) = none
    ∧ ∃ j, lookupUrl [some "a"] "a" = some j ∧
        statusAt (enrich_with_clado [some "a"]
          (fun _ => SubmitResp.http 200 (some "J"))
          (fun _ => none)).1 j = some "Error: Job failed" := by
  have hnt : ∀ m, POLL_INTERVAL * m ≤ MAX_POLL_TIME →
      ∃ s, poll_job_status
        ((fun _ => PollResp.http 200 ⟨"processing", 0, 0, 0, []⟩) m) = some s ∧
          ¬ terminalStatus s := by
    intro m _
    exact ⟨⟨"processing", 0, 0, 0, []⟩, rfl, by
      rw [terminalStatus]
      decide⟩
  have hwait := (c4_poll_timeout
    (fun _ => PollResp.http 200 ⟨"processing", 0, 0, 0, []⟩)
    [some "a"] (fun _ => SubmitResp.http 200 (some "J")) (fun _ => none)
    0 "a").2.1 hnt
  refine ⟨hwait, ?_⟩
  exact (c4_poll_timeout
    (fun _ => PollResp.http 200 ⟨"processing", 0, 0, 0, []⟩)
    [some "a"] (fun _ => SubmitResp.http 200 (some "J")) (fun _ => none)
    0 "a").2.2 (by decide) (fun a snap h => by simp at h) (by decide)
      (by decide) ⟨"J", rfl⟩ hwait.symm hnt

/-- Claim C9 as stated is false on the code: a completed job whose results
list omits the submitted identifier leaves that identifier's record with an
empty, unclassified enrichment status. -/
theorem c9_silent_omission_counterexample :
    (fun _ : Nat => some (⟨"completed", 1, 1, 0, []⟩ : Snapshot)) 0 =
      some ⟨"completed", 1, 1, 0, []⟩
    ∧ statusAt (enrich_with_clado [some "u1"]
        (fun _ => SubmitResp.http 200 (some "J"))
        (fun _ => some ⟨"completed", 1, 1, 0, []⟩)).1 0 = some "" := by
  exact ⟨rfl, by decide⟩

/-- Claim C9, amended: after enrichment (with distinct valid URLs) every
row's record carries a success status or a classified error status, with
one exception: a row whose identifier was submitted in a batch whose job
returned a snapshot that omits the identifier from its results list keeps
the empty initial status.  Formally: an empty final status implies the
row's URL is valid, its batch's submission yielded a job id, the job
produced a snapshot, and no result of that snapshot names the URL. -/
theorem c9_no_silent_failure_amended (rows : List (Option String))
    (submitO : Nat → SubmitResp) (jobO : Nat → Option Snapshot)
    (hnd : (validUrls rows).Nodup) :
    ∀ i, statusAt (enrich_with_clado rows submitO jobO).1 i = some "" →
      ∃ o u, rows.get? i = some o ∧ truthyUrl o = some u ∧
        ∃ k, k < (chunkBatches (validUrls rows)).length ∧
          u ∈ (chunkBatches (validUrls rows)).getD k [] ∧
          (∃ jid, submit_bulk_job (submitO k) = some jid) ∧
          ∃ snap, jobO k = some snap ∧
            ∀ r ∈ snap.results, truthyUrl r.linkedin_url ≠ some u := by
  intro i hempty
  by_cases hne : (validUrls rows).isEmpty
  · rw [enrich_with_clado, if_pos hne] at hempty
    obtain ⟨o, u, hget, htr⟩ := initRows_status_empty hempty
    exfalso
    have hmem : u ∈ validUrls rows := by
      rw [validUrls]
      exact List.mem_filterMap.mpr
        ⟨o, (List.mem_iff_get?).mpr ⟨i, hget⟩, htr⟩
    rw [List.isEmpty_iff] at hne
    rw [hne] at hmem
    simp at hmem
  · have hne' : (validUrls rows).isEmpty = false := by
      cases h : (validUrls rows).isEmpty
      · rfl
      · exact absurd h hne
    rw [enrich_with_clado_run hne'] at hempty
    have hinit : statusAt (initRows rows) i = some "" := by
      rcases statusAt_runBatches_cases (chunkBatches (validUrls rows)) 0
        (initRows rows) with hc | ⟨s', hc, hne''⟩
      · rw [← hc]
        exact hempty
      · rw [hempty] at hc
        have : ("" : String) = s' := by injection hc
        exact absurd this.symm hne''
    obtain ⟨o, u, hget, htr⟩ := initRows_status_empty hinit
    refine ⟨o, u, hget, htr, ?_⟩
    have humem : u ∈ validUrls rows := by
      rw [validUrls]
      exact List.mem_filterMap.mpr
        ⟨o, (List.mem_iff_get?).mpr ⟨i, hget⟩, htr⟩
    obtain ⟨k, hk, hub⟩ := mem_chunk_index humem
    have hlook : lookupUrl rows u = some i :=
      lookupUrl_complete hnd ((mem_urlIndex u i rows).mpr ⟨o, hget, htr⟩)
    have hilt : i < (initRows rows).length := by
      rw [length_initRows]
      exact (List.get?_eq_some.mp hget).1
    have hnotouch : ¬ batchTouches rows submitO jobO i k
        ((chunkBatches (validUrls rows)).getD k []) := by
      intro htouch
      obtain ⟨s', hs', hne''⟩ := statusAt_runBatches_touch
        (chunkBatches (validUrls rows)) 0 (initRows rows) k hk
        (by rw [Nat.zero_add]; exact htouch) hilt
      rw [hempty] at hs'
      have : ("" : String) = s' := by injection hs'
      exact absurd this.symm hne''
    have hfm : failureMark submitO jobO k = none := by
      cases hf : failureMark submitO jobO k with
      | none => rfl
      | some s =>
        exfalso
        exact hnotouch (Or.inl ⟨by rw [hf]; simp, u, hub, hlook⟩)
    obtain ⟨jid, hjid, snap, hsnap⟩ :
        ∃ jid, submit_bulk_job (submitO k) = some jid ∧
          ∃ snap, jobO k = some snap := by
      rw [failureMark] at hfm
      cases hsub : submit_bulk_job (submitO k) with
      | none =>
        rw [hsub] at hfm
        simp at hfm
      | some jid =>
        rw [hsub] at hfm
        cases hjob : jobO k with
        | none =>
          rw [hjob] at hfm
          simp at hfm
        | some snap => exact ⟨jid, rfl, snap, rfl⟩
    refine ⟨k, hk, hub, ⟨jid, hjid⟩, snap, hsnap, ?_⟩
    intro r hr htr'
    refine hnotouch (Or.inr ⟨⟨jid, hjid⟩, snap, hsnap, r, hr, u, htr', hlook⟩)

/-- Witness for the amended no-silent-failure claim: in the one-row run of
the counterexample the empty status indeed comes with a completed job that
omitted the row's URL. -/
theorem c9_no_silent_failure_amended_witness :
    ∃ o u, ([some "u1"] : List (Option String)).get? 0 = some o ∧
      truthyUrl o = some u ∧
      ∃ k, k < (chunkBatches (validUrls [some "u1"])).length ∧
        u ∈ (chunkBatches (validUrls [some "u1"])).getD k [] ∧
        (∃ jid, submit_bulk_job
          ((fun _ => SubmitResp.http 200 (some "J")) k) = some jid) ∧
        ∃ snap, (fun _ : Nat =>
            some (⟨"completed", 1, 1, 0, []⟩ : Snapshot)) k = some snap ∧
          ∀ r ∈ snap.results, truthyUrl r.linkedin_url ≠ some u :=
  c9_no_silent_failure_amended [some "u1"]
    (fun _ => SubmitResp.http 200 (some "J"))
    (fun _ => some ⟨"completed", 1, 1, 0, []⟩) (by decide) 0 (by decide)

/-! ## Per-identifier retry mode

Modelled from the spec: the per-identifier operating mode of spec section
4.3 (bounded-concurrency single-identifier requests with rate-limit retry
and backoff) has no implementation under src/ — only the bulk mode exists
there.  The definitions below follow the spec's words. -/

/-- Modelled from the spec: `MAX_RETRIES` (e.g., 3). -/
def MAX_RETRIES : Nat := 3

/-- Modelled from the spec: the exponential-backoff seed (e.g., 5s). -/
def INITIAL_BACKOFF : Nat := 5

/-- Modelled from the spec: the response to one single-identifier request —
success with a record, rate-limited with an optional machine-readable wait
hint, or an auth/quota failure (immediately terminal for the
identifier). -/
inductive IdResp where
  | ok (record : String)
  | rateLimited (hint : Option Nat)
  | authFailed
  | quotaExhausted
deriving DecidableEq, Repr

/-- Modelled from the spec: the outcome recorded for one identifier. -/
inductive IdOutcome where
  | success (record : String)
  | failed (reason : String)
deriving DecidableEq, Repr

/-- Modelled from the spec, sections 4.3/4.4: the request loop for one
identifier.  `responses n` answers the n-th request.  On a rate limit, wait
the hinted duration plus a fixed safety margin when a hint is present,
otherwise the current backoff (doubled for the next attempt); retry up to
`MAX_RETRIES` times, after which the identifier is marked failed with a
"max retries exceeded" reason.  Returns the outcome, the number of retries
performed, and the waits taken, in order. -/
def retryLoop (responses : Nat → IdResp) (margin : Nat) :
    Nat → Nat → List Nat → IdOutcome × Nat × List Nat
  | attempt, backoff, waits =>
    match responses attempt with
    | .ok r => (.success r, attempt, waits)
    | .rateLimited hint =>
      if attempt < MAX_RETRIES then
        retryLoop responses margin (attempt + 1) (backoff * 2)
          (waits ++ [match hint with
            | some t => t + margin
            | none => backoff])
      else (.failed "max retries exceeded", attempt, waits)
    | .authFailed => (.failed "authentication failed", attempt, waits)
    | .quotaExhausted => (.failed "quota exhausted", attempt, waits)
termination_by attempt _ _ => MAX_RETRIES + 1 - attempt
decreasing_by
  simp only [MAX_RETRIES] at *
  omega

/-- Modelled from the spec: process one identifier from the first request,
with the backoff seeded at `INITIAL_BACKOFF`. -/
def processIdentifier (responses : Nat → IdResp) (margin : Nat) :
    IdOutcome × Nat × List Nat :=
  retryLoop responses margin 0 INITIAL_BACKOFF []

/-- Modelled from the spec: every identifier of a batch is processed and
yields its own outcome entry; one identifier's failure never aborts the
batch. -/
def processBatch (ids : List String) (resp : String → Nat → IdResp)
    (margin : Nat) : List (String × IdOutcome) :=
  ids.map (fun ident => (ident, (processIdentifier (resp ident) margin).1))

theorem retryLoop_exhaust (responses : Nat → IdResp) (margin : Nat)
    (h : ∀ n, ∃ hh, responses n = .rateLimited hh) :
    ∀ d attempt backoff waits, MAX_RETRIES - attempt = d →
      attempt ≤ MAX_RETRIES →
      (retryLoop responses margin attempt backoff waits).1 =
        .failed "max retries exceeded"
      ∧ (retryLoop responses margin attempt backoff waits).2.1 =
          MAX_RETRIES := by
  intro d
  induction d with
  | zero =>
    intro attempt backoff waits hd hle
    have ha : attempt = MAX_RETRIES := by
      simp only [MAX_RETRIES] at *
      omega
    subst ha
    obtain ⟨hh, hr⟩ := h MAX_RETRIES
    rw [retryLoop, hr]
    simp
  | succ d ih =>
    intro attempt backoff waits hd hle
    have ha : attempt < MAX_RETRIES := by
      simp only [MAX_RETRIES] at *
      omega
    obtain ⟨hh, hr⟩ := h attempt
    rw [retryLoop, hr]
    simp only [ha, if_true]
    exact ih (attempt + 1) (backoff * 2) _
      (by simp only [MAX_RETRIES] at *; omega)
      (by simp only [MAX_RETRIES] at *; omega)

/-- Claim C6 (spec-modelled): an identifier that always receives rate-limit
responses is retried exactly `MAX_RETRIES` times, then marked failed with a
"max retries exceeded" reason; processing continues with the other
identifiers — the batch yields one entry per identifier in order, the
exhausted one carrying the failure, and (without server hints) the backoff
waits double from the seed. -/
theorem c6_retry_exhaustion (ids : List String)
    (resp : String → Nat → IdResp) (margin : Nat) (x : String)
    (hx : ∀ n, ∃ hh, resp x n = .rateLimited hh) :
    (processIdentifier (resp x) margin).1 = .failed "max retries exceeded"
    ∧ (processIdentifier (resp x) margin).2.1 = MAX_RETRIES
    ∧ (processBatch ids resp margin).map Prod.fst = ids
    ∧ (∀ p ∈ processBatch ids resp margin, p.1 = x →
        p.2 = .failed "max retries exceeded")
    ∧ (∀ margin', (processIdentifier (fun _ => IdResp.rateLimited none)
        margin').2.2 =
          [INITIAL_BACKOFF, INITIAL_BACKOFF * 2, INITIAL_BACKOFF * 2 * 2]) := by
  have hmain := retryLoop_exhaust (resp x) margin hx MAX_RETRIES 0
    INITIAL_BACKOFF [] rfl (Nat.zero_le _)
  refine ⟨hmain.1, hmain.2, ?_, ?_, ?_⟩
  · rw [processBatch]
    induction ids with
    | nil => rfl
    | cons a as ih => simp only [List.map_cons, ih]
  · intro p hp hpx
    obtain ⟨ident, hid, hpeq⟩ := List.mem_map.mp hp
    rw [← hpeq] at hpx ⊢
    simp only at hpx ⊢
    rw [hpx]
    exact hmain.1
  · intro margin'
    rw [processIdentifier]
    rw [retryLoop]
    simp [retryLoop, MAX_RETRIES, INITIAL_BACKOFF]

/-- Witness for the retry-exhaustion claim: a two-identifier batch where
`"x"` is always rate limited. -/
theorem c6_retry_exhaustion_witness :
    (processIdentifier ((fun _ _ => IdResp.rateLimited none) "x") 2).1 =
        .failed "max retries exceeded"
    ∧ (processIdentifier ((fun _ _ => IdResp.rateLimited none) "x") 2).2.1 =
        MAX_RETRIES :=
  ⟨(c6_retry_exhaustion ["x", "y"] (fun _ _ => IdResp.rateLimited none) 2 "x"
      (fun _ => ⟨none, rfl⟩)).1,
    (c6_retry_exhaustion ["x", "y"] (fun _ _ => IdResp.rateLimited none) 2 "x"
      (fun _ => ⟨none, rfl⟩)).2.1⟩

end ClayEmails
